import Mathlib

/-
Verification development for the open-world streaming core:
the cell-key encoding of `ChunkManager`, the biome content synthesizer
(`BiomeGenerator`), the seeded noise-field constructor (`SimplexNoise`),
and the streaming state machine (`ChunkManager.update` and its helpers).

Numeric conventions: JS numbers are modelled as `ℚ` where continuous
quantities flow (world coordinates, sizes, pseudo-random draws) and as
`ℤ`/`ℕ` where the source manipulates integers (cell coordinates, the
permutation table, counters).  JS strings are modelled as `List Char`.
-/

namespace OpenWorld

/-- JS strings (cell keys) are modelled as lists of characters. -/
abbrev JSStr := List Char

/-! ## Cell-key encoding: the template literal of the form cx comma cz
used by `ChunkManager.update`, and the parse performed by
`ChunkManager.loadChunk` (split on the comma, then `parseInt`). -/

/-- Little-endian base-10 digits of `n` (empty for `n = 0`), with explicit
fuel so that the definition is structural and kernel-reducible. -/
def toDigitsAux : ℕ → ℕ → List ℕ
  | 0, _ => []
  | f + 1, n => if n = 0 then [] else n % 10 :: toDigitsAux f (n / 10)

/-- Value of a little-endian digit list. -/
def ofRevDigits : List ℕ → ℕ
  | [] => 0
  | d :: ds => d + 10 * ofRevDigits ds

/-- Little-endian base-10 digits of `n`, printing `0` as the digit `0`. -/
def natRevDigits (n : ℕ) : List ℕ :=
  if n = 0 then [0] else toDigitsAux n n

/-- ASCII character of a decimal digit. -/
def digitToChar (d : ℕ) : Char := Char.ofNat (48 + d)

/-- Decimal string of a natural number, as produced by JS number-to-string
conversion for integral values. -/
def natStr (n : ℕ) : JSStr := (natRevDigits n).reverse.map digitToChar

/-- Decimal string of an integer: a leading minus sign for negatives,
matching JS template-literal stringification of integral numbers. -/
def intStr (i : ℤ) : JSStr := if i < 0 then '-' :: natStr i.natAbs else natStr i.natAbs

/-- Cell key built by `ChunkManager.update`: the template literal
interpolating `chunkX`, a comma, and `chunkZ`. -/
def chunkKey (cx cz : ℤ) : JSStr := intStr cx ++ ',' :: intStr cz

/-- ASCII decimal digit test, as `parseInt` accepts in radix 10. -/
def isDigitChar (c : Char) : Bool := 48 ≤ c.toNat && c.toNat ≤ 57

/-- Value of a big-endian ASCII digit string, accumulated left to right
exactly as radix-10 `parseInt` does. -/
def digitsVal (ds : List Char) : ℕ := ds.foldl (fun a c => 10 * a + (c.toNat - 48)) 0

/-- Leading-digit scan of `parseInt`: take the longest digit prefix; the
result is NaN (here `none`) when no digit is found. -/
def parseDigits (s : JSStr) : Option ℕ :=
  let ds := s.takeWhile isDigitChar
  if ds.isEmpty then none else some (digitsVal ds)

/-- Model of JS `parseInt(s)` (radix 10) on whitespace-free input: an
optional sign followed by a maximal digit prefix; `none` stands for NaN. -/
def jsParseInt (s : JSStr) : Option ℤ :=
  match s with
  | [] => none
  | c :: r =>
    if c = '-' then (parseDigits r).map (fun n => -(n : ℤ))
    else if c = '+' then (parseDigits r).map (fun n => (n : ℤ))
    else (parseDigits (c :: r)).map (fun n => (n : ℤ))

/-- Key split performed by `ChunkManager.loadChunk`: `key.split(',')`
destructured into the two halves around the first comma. -/
def splitAtComma (s : JSStr) : JSStr × JSStr :=
  (s.takeWhile (fun c => c ≠ ','), (s.dropWhile (fun c => c ≠ ',')).drop 1)

/-- The pair of `parseInt` results `ChunkManager.loadChunk` extracts from a
cell key. -/
def parseChunkKey (s : JSStr) : Option ℤ × Option ℤ :=
  (jsParseInt (splitAtComma s).1, jsParseInt (splitAtComma s).2)

/-! ## Content synthesizer: `BiomeGenerator`

The synthesizer is embedded as a pure producer of placement data: each
`create*` helper yields the list of visual objects it adds to the chunk's
object group and the list of static collision bodies it registers, in call
order.  The coordinate-seeded draw `seededRandom(x, z, offset)` (a
fract-of-scaled-sine hash of `(x, z, offset, seed)`) is kept abstract as
the field `sr` of `BiomeGenerator`, since its transcendental float value
has no exact rational embedding; what matters for the claims is that it is
a fixed pure function determined by the seed.  The ambient `Math.random()`
generator consulted by `createRock` is modelled explicitly: `rand n` is
the value of the n-th `Math.random()` call made during one synthesis
(rocks are the only consumers, in rock-creation order). -/

/-- Biome categories of the classifier. -/
inductive BiomeType
  | City
  | Suburban
  | Desert
  | Forest
  | Snow
  deriving DecidableEq

/-- Material tag a rock is created with (shared gray, desert tan, snow). -/
inductive RockMat
  | gray
  | desertTan
  | snowWhite
  deriving DecidableEq

/-- Visual objects placed into a chunk's object group.  A rock stores its
raw `Math.random()` rotation draw (`rotation.y` is 2·π times it); all
other transforms are stored directly. -/
inductive VisualObject
  | road (horizontal : Bool) (x z : ℚ)
  | marking (horizontal : Bool) (x z : ℚ)
  | building (w h d x z : ℚ) (dark : Bool)
  | tree (x z : ℚ)
  | cactus (x z : ℚ)
  | rock (x z scale rotDraw : ℚ) (mat : RockMat)
  deriving DecidableEq

/-- Static collision volumes registered with the physics collaborator. -/
inductive PhysBody
  | box (hw hh hd x y z : ℚ)
  | sphere (r x y z : ℚ)
  deriving DecidableEq

/-- Output of a synthesis step: visual objects (group-add order) and
collision bodies (push order). -/
structure GenOut where
  objects : List VisualObject
  bodies : List PhysBody
  deriving DecidableEq

/-- Empty synthesis output. -/
def GenOut.nil : GenOut := ⟨[], []⟩

/-- Sequential composition of synthesis steps. -/
def GenOut.append (a b : GenOut) : GenOut := ⟨a.objects ++ b.objects, a.bodies ++ b.bodies⟩

/-- Concatenation of a list of synthesis steps, in order. -/
def concatOut (l : List GenOut) : GenOut := l.foldr GenOut.append GenOut.nil

/-- Cell edge length (`CHUNK_SIZE = 100`). -/
def CHUNK_SIZE : ℚ := 100

/-- The synthesizer: `sr` abstracts the method `seededRandom`, the pure
coordinate-seeded hash determined by the world seed. -/
structure BiomeGenerator where
  sr : ℚ → ℚ → ℚ → ℚ

/-- Model of `createBuilding`: one box mesh (material chosen by a
`seededRandom(x, z)` draw) and one matching static box body, both at
`(x, height/2, z)`. -/
def createBuilding (g : BiomeGenerator) (x z w h d : ℚ) : GenOut :=
  { objects := [.building w h d x z (if g.sr x z 0 > 0.5 then false else true)],
    bodies := [.box (w / 2) (h / 2) (d / 2) x (h / 2) z] }

/-- Model of `createTree`: a trunk-plus-foliage group at `(x, 0, z)`, no
collision body. -/
def createTree (x z : ℚ) : GenOut := ⟨[.tree x z], []⟩

/-- Model of `createCactus`: one cactus mesh, no collision body. -/
def createCactus (x z : ℚ) : GenOut := ⟨[.cactus x z], []⟩

/-- Model of `createRock`: a scaled rock mesh whose `rotation.y` is
`Math.random() * π * 2` (the raw draw `rotDraw` is stored), plus a static
sphere body of radius `scale * 1.2` at `(x, scale * 0.75, z)`. -/
def createRock (x z scale rotDraw : ℚ) (mat : RockMat) : GenOut :=
  ⟨[.rock x z scale rotDraw mat], [.sphere (scale * 1.2) x (scale * 0.75) z]⟩

/-- Number of road markings per road: `Math.floor(chunkSize / 8)`. -/
def markingCount : ℕ := (⌊CHUNK_SIZE / 8⌋).toNat

/-- Model of `addRoadMarkings`: `markingCount` dashes spaced 8 units apart
starting at `-chunkSize/2 + 4` along the road axis. -/
def addRoadMarkings (horizontal : Bool) (worldX worldZ : ℚ) : List VisualObject :=
  (List.range markingCount).map fun (i : ℕ) =>
    if horizontal then .marking true (worldX + (-(CHUNK_SIZE / 2) + 4) + i * 8) worldZ
    else .marking false worldX (worldZ + (-(CHUNK_SIZE / 2) + 4) + i * 8)

/-- Model of `generateRoads`: a horizontal through-road when `cz` is even
and a vertical through-road when `cx` is even, each with its markings,
centered on the cell. -/
def generateRoads (cx cz : ℤ) : List VisualObject :=
  let worldX : ℚ := cx * CHUNK_SIZE + CHUNK_SIZE / 2
  let worldZ : ℚ := cz * CHUNK_SIZE + CHUNK_SIZE / 2
  (if cz % 2 = 0 then VisualObject.road true worldX worldZ :: addRoadMarkings true worldX worldZ
   else [])
    ++ (if cx % 2 = 0 then
          VisualObject.road false worldX worldZ :: addRoadMarkings false worldX worldZ
        else [])

/-- Model of `addBuildingsAlongRoad`: two buildings flanking the single
road of a road cell that has exactly one road direction. -/
def addBuildingsAlongRoad (g : BiomeGenerator) (cx cz : ℤ) : GenOut :=
  let worldX : ℚ := cx * CHUNK_SIZE
  let worldZ : ℚ := cz * CHUNK_SIZE
  GenOut.append
    (if cz % 2 = 0 ∧ ¬cx % 2 = 0 then
      concatOut ((List.range 2).map fun (i : ℕ) =>
        let offsetX := (g.sr cx cz (i * 100) - 0.5) * (CHUNK_SIZE - 30)
        let offsetZ := (if i = 0 then (-1 : ℚ) else 1) * 30
        let w := 15 + g.sr cx cz (i * 110) * 10
        let h := 15 + g.sr cx cz (i * 120) * 25
        let d := 12 + g.sr cx cz (i * 130) * 8
        createBuilding g (worldX + CHUNK_SIZE / 2 + offsetX) (worldZ + CHUNK_SIZE / 2 + offsetZ)
          w h d)
     else GenOut.nil)
    (if cx % 2 = 0 ∧ ¬cz % 2 = 0 then
      concatOut ((List.range 2).map fun (i : ℕ) =>
        let offsetX := (if i = 0 then (-1 : ℚ) else 1) * 30
        let offsetZ := (g.sr cx cz (i * 200) - 0.5) * (CHUNK_SIZE - 30)
        let w := 12 + g.sr cx cz (i * 210) * 8
        let h := 15 + g.sr cx cz (i * 220) * 25
        let d := 15 + g.sr cx cz (i * 230) * 10
        createBuilding g (worldX + CHUNK_SIZE / 2 + offsetX) (worldZ + CHUNK_SIZE / 2 + offsetZ)
          w h d)
     else GenOut.nil)

/-- Model of `generateCityContent`: road cells get side buildings only;
interior cells get `2 + floor(sr * 3)` grid buildings. -/
def generateCityContent (g : BiomeGenerator) (cx cz : ℤ) : GenOut :=
  let worldX : ℚ := cx * CHUNK_SIZE
  let worldZ : ℚ := cz * CHUNK_SIZE
  if cx % 2 = 0 ∨ cz % 2 = 0 then addBuildingsAlongRoad g cx cz
  else
    let numBuildings := (2 + ⌊g.sr cx cz 0 * 3⌋).toNat
    concatOut ((List.range numBuildings).map fun (i : ℕ) =>
      let offsetX := (g.sr cx cz (i * 10) - 0.5) * (CHUNK_SIZE - 30)
      let offsetZ := (g.sr cx cz (i * 10 + 5) - 0.5) * (CHUNK_SIZE - 30)
      let w := 10 + g.sr cx cz (i * 20) * 15
      let h := 20 + g.sr cx cz (i * 30) * 40
      let d := 10 + g.sr cx cz (i * 40) * 15
      createBuilding g (worldX + CHUNK_SIZE / 2 + offsetX) (worldZ + CHUNK_SIZE / 2 + offsetZ)
        w h d)

/-- Model of `generateSuburbanContent`: houses on interior cells plus
scattered trees. -/
def generateSuburbanContent (g : BiomeGenerator) (cx cz : ℤ) : GenOut :=
  let worldX : ℚ := cx * CHUNK_SIZE
  let worldZ : ℚ := cz * CHUNK_SIZE
  let houses :=
    if ¬cx % 2 = 0 ∧ ¬cz % 2 = 0 then
      let numHouses := (1 + ⌊g.sr cx cz 0 * 2⌋).toNat
      concatOut ((List.range numHouses).map fun (i : ℕ) =>
        let offsetX := (g.sr cx cz (i * 50) - 0.5) * (CHUNK_SIZE - 20)
        let offsetZ := (g.sr cx cz (i * 60) - 0.5) * (CHUNK_SIZE - 20)
        let w := 8 + g.sr cx cz (i * 70) * 6
        let h := 5 + g.sr cx cz (i * 80) * 4
        let d := 8 + g.sr cx cz (i * 90) * 6
        createBuilding g (worldX + CHUNK_SIZE / 2 + offsetX) (worldZ + CHUNK_SIZE / 2 + offsetZ)
          w h d)
    else GenOut.nil
  let numTrees := (3 + ⌊g.sr cx cz 500 * 4⌋).toNat
  let trees := concatOut ((List.range numTrees).map fun (i : ℕ) =>
    createTree (worldX + CHUNK_SIZE / 2 + (g.sr cx cz (i * 300) - 0.5) * CHUNK_SIZE)
      (worldZ + CHUNK_SIZE / 2 + (g.sr cx cz (i * 310) - 0.5) * CHUNK_SIZE))
  houses.append trees

/-- Model of `generateDesertContent`: cacti and desert rocks. -/
def generateDesertContent (g : BiomeGenerator) (rand : ℕ → ℚ) (cx cz : ℤ) : GenOut :=
  let worldX : ℚ := cx * CHUNK_SIZE
  let worldZ : ℚ := cz * CHUNK_SIZE
  let numCacti := (2 + ⌊g.sr cx cz 0 * 5⌋).toNat
  let cacti := concatOut ((List.range numCacti).map fun (i : ℕ) =>
    createCactus (worldX + CHUNK_SIZE / 2 + (g.sr cx cz (i * 400) - 0.5) * CHUNK_SIZE)
      (worldZ + CHUNK_SIZE / 2 + (g.sr cx cz (i * 410) - 0.5) * CHUNK_SIZE))
  let numRocks := (1 + ⌊g.sr cx cz 100 * 3⌋).toNat
  let rocks := concatOut ((List.range numRocks).map fun (i : ℕ) =>
    createRock (worldX + CHUNK_SIZE / 2 + (g.sr cx cz (i * 420) - 0.5) * CHUNK_SIZE)
      (worldZ + CHUNK_SIZE / 2 + (g.sr cx cz (i * 430) - 0.5) * CHUNK_SIZE)
      (0.5 + g.sr cx cz (i * 440) * 1.5) (rand i) .desertTan)
  cacti.append rocks

/-- Model of `generateForestContent`: many trees and a few rocks. -/
def generateForestContent (g : BiomeGenerator) (rand : ℕ → ℚ) (cx cz : ℤ) : GenOut :=
  let worldX : ℚ := cx * CHUNK_SIZE
  let worldZ : ℚ := cz * CHUNK_SIZE
  let numTrees := (8 + ⌊g.sr cx cz 0 * 10⌋).toNat
  let trees := concatOut ((List.range numTrees).map fun (i : ℕ) =>
    createTree (worldX + CHUNK_SIZE / 2 + (g.sr cx cz (i * 500) - 0.5) * CHUNK_SIZE)
      (worldZ + CHUNK_SIZE / 2 + (g.sr cx cz (i * 510) - 0.5) * CHUNK_SIZE))
  let numRocks := (⌊g.sr cx cz 200 * 3⌋).toNat
  let rocks := concatOut ((List.range numRocks).map fun (i : ℕ) =>
    createRock (worldX + CHUNK_SIZE / 2 + (g.sr cx cz (i * 520) - 0.5) * CHUNK_SIZE)
      (worldZ + CHUNK_SIZE / 2 + (g.sr cx cz (i * 530) - 0.5) * CHUNK_SIZE)
      (0.3 + g.sr cx cz (i * 540) * 0.8) (rand i) .gray)
  trees.append rocks

/-- Model of `generateSnowContent`: conifers and snow-covered rocks. -/
def generateSnowContent (g : BiomeGenerator) (rand : ℕ → ℚ) (cx cz : ℤ) : GenOut :=
  let worldX : ℚ := cx * CHUNK_SIZE
  let worldZ : ℚ := cz * CHUNK_SIZE
  let numTrees := (4 + ⌊g.sr cx cz 0 * 6⌋).toNat
  let trees := concatOut ((List.range numTrees).map fun (i : ℕ) =>
    createTree (worldX + CHUNK_SIZE / 2 + (g.sr cx cz (i * 600) - 0.5) * CHUNK_SIZE)
      (worldZ + CHUNK_SIZE / 2 + (g.sr cx cz (i * 610) - 0.5) * CHUNK_SIZE))
  let numRocks := (2 + ⌊g.sr cx cz 300 * 3⌋).toNat
  let rocks := concatOut ((List.range numRocks).map fun (i : ℕ) =>
    createRock (worldX + CHUNK_SIZE / 2 + (g.sr cx cz (i * 620) - 0.5) * CHUNK_SIZE)
      (worldZ + CHUNK_SIZE / 2 + (g.sr cx cz (i * 630) - 0.5) * CHUNK_SIZE)
      (0.5 + g.sr cx cz (i * 640) * 1.2) (rand i) .snowWhite)
  trees.append rocks

/-- Model of `generateChunkContent`: roads are generated only for City and
Suburban cells, then the biome-specific content is appended. -/
def generateChunkContent (g : BiomeGenerator) (rand : ℕ → ℚ) (cx cz : ℤ)
    (biome : BiomeType) : GenOut :=
  let roads : List VisualObject :=
    if biome = .City ∨ biome = .Suburban then generateRoads cx cz else []
  let content : GenOut :=
    match biome with
    | .City => generateCityContent g cx cz
    | .Suburban => generateSuburbanContent g cx cz
    | .Desert => generateDesertContent g rand cx cz
    | .Forest => generateForestContent g rand cx cz
    | .Snow => generateSnowContent g rand cx cz
  ⟨roads ++ content.objects, content.bodies⟩

/-- Horizontal-through-road detector. -/
def isHRoadObj : VisualObject → Bool
  | .road true _ _ => true
  | _ => false

/-- Vertical-through-road detector. -/
def isVRoadObj : VisualObject → Bool
  | .road false _ _ => true
  | _ => false

/-- Any-road detector. -/
def isRoadObj : VisualObject → Bool
  | .road _ _ _ => true
  | _ => false

/-- A synthesized cell hosts a horizontal through-road. -/
def hasRoadH (o : GenOut) : Bool := o.objects.any isHRoadObj

/-- A synthesized cell hosts a vertical through-road. -/
def hasRoadV (o : GenOut) : Bool := o.objects.any isVRoadObj

/-- A synthesized cell hosts a through-road of either direction. -/
def hasRoad (o : GenOut) : Bool := o.objects.any isRoadObj

/-- Concrete synthesizer instance whose coordinate-seeded draw is
identically zero, used for concrete evaluations. -/
def srZero : BiomeGenerator := ⟨fun _ _ _ => 0⟩

/-- The `Math.random()` rotation draws of the rocks of a synthesized cell,
in creation order. -/
def rotDraws (o : GenOut) : List ℚ :=
  o.objects.filterMap fun v =>
    match v with
    | .rock _ _ _ r _ => some r
    | _ => none

/-! ## Noise field: `SimplexNoise`

The constructor's permutation-table build is integer code and is embedded
directly.  Arithmetic is exact `ℤ` arithmetic with the bit-mask modelled
as reduction mod 2^31; a JS engine additionally rounds the oversized LCG
product to a double, which can change the shuffled values but not the
determinism and purity properties settled here.  The float-valued sample
`noise2D` itself is kept abstract in the classifier below. -/

/-- One step of the constructor's linear-congruential generator:
`s = (s * 1103515245 + 12345) & 0x7fffffff`. -/
def lcgStep (s : ℤ) : ℤ := (s * 1103515245 + 12345) % (2 ^ 31)

/-- One iteration of the constructor's seeded Fisher-Yates shuffle at
index `i`: advance the LCG, pick `j = s % (i + 1)`, swap `p[i]` and
`p[j]`. -/
def shuffleStep (st : ℤ × List ℤ) (i : ℕ) : ℤ × List ℤ :=
  let s := lcgStep st.1
  let j := (s % ((i : ℤ) + 1)).toNat
  let p := st.2
  (s, (p.set i (p.getD j 0)).set j (p.getD i 0))

/-- The shuffled base table `p`: identity on `0..255`, then the shuffle
loop for `i = 255` down to `1`. -/
def mkPermBase (seed : ℤ) : List ℤ :=
  (((List.range 255).map (fun k => 255 - k)).foldl shuffleStep
    (seed, (List.range 256).map (fun i => (i : ℤ)))).2

/-- The wrapped permutation table: `perm[i] = p[i & 255]` for
`i = 0..511`. -/
def mkPerm (seed : ℤ) : List ℤ :=
  (List.range 512).map (fun i => (mkPermBase seed).getD (i % 256) 0)

/-- The gradient-index table: `permMod12[i] = perm[i] % 12`. -/
def mkPermMod12 (seed : ℤ) : List ℤ := (mkPerm seed).map (fun v => v % 12)

/-- A `SimplexNoise` instance: the two tables precomputed by the
constructor; no further mutable state exists. -/
structure SimplexNoise where
  perm : List ℤ
  permMod12 : List ℤ
  deriving DecidableEq

/-- The constructor: both tables are functions of the seed alone. -/
def mkSimplexNoise (seed : ℤ) : SimplexNoise := ⟨mkPerm seed, mkPermMod12 seed⟩

/-! ## Biome classifier: `BiomeGenerator.getBiome` -/

/-- Classifier state: `noise2D` abstracts the float-valued gradient-noise
sample of the seed's `SimplexNoise` instance (a fixed pure function; its
body is transcendental float arithmetic over the permutation tables). -/
structure BiomeClassifier where
  noise2D : ℚ → ℚ → ℚ

/-- Model of `SimplexNoise.fbm`: octave loop summing scaled samples,
normalized by the accumulated amplitude, embedded from source over the
abstract sample.  The state is (value, amplitude, frequency, maxValue). -/
def fbm (n2 : ℚ → ℚ → ℚ) (x y : ℚ) (octaves : ℕ) (lacunarity persistence : ℚ) : ℚ :=
  let r := (List.range octaves).foldl
    (fun acc _ =>
      (acc.1 + acc.2.1 * n2 (x * acc.2.2.1) (y * acc.2.2.1),
        acc.2.1 * persistence, acc.2.2.1 * lacunarity, acc.2.2.2 + acc.2.1))
    ((0 : ℚ), (1 : ℚ), (1 : ℚ), (0 : ℚ))
  r.1 / r.2.2.2

/-- Model of `BiomeGenerator.getBiome`: thresholds on a macro fbm sample
and a secondary sample at 0.7x frequency. -/
def getBiome (c : BiomeClassifier) (worldX worldZ : ℚ) : BiomeType :=
  let scale : ℚ := 0.002
  let noiseValue := fbm c.noise2D (worldX * scale) (worldZ * scale) 3 2 0.5
  let tempNoise := c.noise2D (worldX * scale * 0.7) (worldZ * scale * 0.7)
  if noiseValue > 0.3 then (if tempNoise > 0 then .City else .Suburban)
  else if noiseValue > 0 then .Forest
  else if noiseValue > -0.3 then (if tempNoise > 0.2 then .Snow else .Desert)
  else .Desert

/-- Call-with-state view of `getBiome`: the method reads the classifier
and returns it untouched (the source mutates nothing after
construction). -/
def getBiomeCall (c : BiomeClassifier) (worldX worldZ : ℚ) : BiomeType × BiomeClassifier :=
  (getBiome c worldX worldZ, c)

/-! ## Streaming manager: `ChunkManager`

The manager state carries the resident map (a JS `Map` in insertion
order, embedded as an association list), the two key queues, the two
resource pools, the set of scene attachments and physics bodies (by
resource identity, embedded as numeric ids drawn from a fresh counter),
and a ghost event log recording each performed load/unload.  The two
collaborator computations a load consumes — the float-valued biome
classification of the cell origin and the number of collision bodies the
synthesizer registers — are supplied by a `ChunkConfig`. -/

/-- Resident-cell record (`ChunkData`). -/
structure ChunkData where
  key : JSStr
  x : ℤ
  z : ℤ
  biome : BiomeType
  ground : ℕ
  objects : ℕ
  physicsObjects : List ℕ
  isLoaded : Bool
  deriving DecidableEq

/-- Ghost log entry: one performed load or unload. -/
inductive StreamEvent
  | load (key : JSStr)
  | unload (key : JSStr)
  deriving DecidableEq

/-- Collaborator summary consumed by a load: the biome of a cell's world
origin and the number of collision bodies synthesized for the cell. -/
structure ChunkConfig where
  biomeAt : ℤ → ℤ → BiomeType
  bodyCount : ℤ → ℤ → BiomeType → ℕ

/-- The streaming manager's state. -/
structure ChunkState where
  chunks : List (JSStr × ChunkData)
  loadQueue : List JSStr
  unloadQueue : List JSStr
  isProcessing : Bool
  groundMeshPool : List ℕ
  objectGroupPool : List ℕ
  scene : List ℕ
  physicsBodies : List ℕ
  nextId : ℕ
  log : List StreamEvent
  deriving DecidableEq

/-- State after construction: everything empty. -/
def initialState : ChunkState := ⟨[], [], [], false, [], [], [], [], 0, []⟩

/-- JS `Map.get`. -/
def assocLookup {α : Type} (l : List (JSStr × α)) (k : JSStr) : Option α :=
  match l with
  | [] => none
  | (k', v) :: rest => if k' = k then some v else assocLookup rest k

/-- JS `Map.set`: replace in place, or append a new binding. -/
def assocSet {α : Type} (l : List (JSStr × α)) (k : JSStr) (v : α) : List (JSStr × α) :=
  match l with
  | [] => [(k, v)]
  | (k', v') :: rest => if k' = k then (k, v) :: rest else (k', v') :: assocSet rest k v

/-- JS `Map.delete`. -/
def assocErase {α : Type} (l : List (JSStr × α)) (k : JSStr) : List (JSStr × α) :=
  match l with
  | [] => []
  | (k', v') :: rest => if k' = k then rest else (k', v') :: assocErase rest k

/-- Keys of the resident map, in insertion order. -/
def chunkKeys (s : ChunkState) : List JSStr := s.chunks.map Prod.fst

/-- Model of `createGround`: reuse the last pooled ground mesh
(JS `Array.pop` takes the last element), or construct a fresh one (a
fresh id) when the pool is empty. -/
def createGround (s : ChunkState) : ℕ × ChunkState :=
  match s.groundMeshPool.getLast? with
  | some g => (g, { s with groundMeshPool := s.groundMeshPool.dropLast })
  | none => (s.nextId, { s with nextId := s.nextId + 1 })

/-- The object-group pop-or-construct step of `loadChunk`
(`objectGroupPool.pop() || new THREE.Group()`). -/
def popObjectGroup (s : ChunkState) : ℕ × ChunkState :=
  match s.objectGroupPool.getLast? with
  | some o => (o, { s with objectGroupPool := s.objectGroupPool.dropLast })
  | none => (s.nextId, { s with nextId := s.nextId + 1 })

/-- The `ChunkData` record a load of `key` builds: parse the key (the NaN
fallback `getD 0` is never exercised on keys built by `update`), classify
the biome of the cell origin, acquire the ground and object-group
resources, and list the synthesized collision-body ids. -/
def loadRecord (cfg : ChunkConfig) (key : JSStr) (s : ChunkState) : ChunkData :=
  let cx := ((parseChunkKey key).1).getD 0
  let cz := ((parseChunkKey key).2).getD 0
  let biome := cfg.biomeAt (cx * 100) (cz * 100)
  let s2 := (popObjectGroup (createGround s).2).2
  { key := key, x := cx, z := cz, biome := biome,
    ground := (createGround s).1,
    objects := (popObjectGroup (createGround s).2).1,
    physicsObjects := (List.range (cfg.bodyCount cx cz biome)).map (fun i => s2.nextId + i),
    isLoaded := true }

/-- Model of `loadChunk`: acquire resources (pop-or-construct), register
the synthesized collision bodies with the physics world, attach ground
and object group to the scene, and store the cell record. -/
def loadChunk (cfg : ChunkConfig) (key : JSStr) (s : ChunkState) : ChunkState :=
  let cx := ((parseChunkKey key).1).getD 0
  let cz := ((parseChunkKey key).2).getD 0
  let biome := cfg.biomeAt (cx * 100) (cz * 100)
  let record := loadRecord cfg key s
  let s2 := (popObjectGroup (createGround s).2).2
  let n := cfg.bodyCount cx cz biome
  let s3 := { s2 with
    nextId := s2.nextId + n, physicsBodies := s2.physicsBodies ++ record.physicsObjects }
  { s3 with
    scene := s3.scene ++ [record.ground, record.objects],
    chunks := assocSet s3.chunks key record,
    log := .load key :: s3.log }

/-- Model of `unloadChunk`: a no-op on an absent key; otherwise detach
from the scene, remove the collision bodies, return the ground and the
object group to their pools, and delete the record. -/
def unloadChunk (key : JSStr) (s : ChunkState) : ChunkState :=
  match assocLookup s.chunks key with
  | none => s
  | some c =>
    { s with
      scene := (s.scene.erase c.ground).erase c.objects,
      physicsBodies := c.physicsObjects.foldl (fun pb b => pb.erase b) s.physicsBodies,
      groundMeshPool := s.groundMeshPool ++ [c.ground],
      objectGroupPool := s.objectGroupPool ++ [c.objects],
      chunks := assocErase s.chunks key,
      log := .unload key :: s.log }

/-- Model of `processQueues`: guarded by `isProcessing`, drain at most one
entry from the load queue and at most one from the unload queue. -/
def processQueues (cfg : ChunkConfig) (s : ChunkState) : ChunkState :=
  if s.isProcessing then s
  else
    let s1 :=
      match s.loadQueue with
      | [] => s
      | k :: rest => loadChunk cfg k { s with loadQueue := rest }
    let s2 :=
      match s1.unloadQueue with
      | [] => s1
      | k :: rest => unloadChunk k { s1 with unloadQueue := rest }
    { s2 with isProcessing := false }

/-- Needed keys around observer cell `(pcx, pcz)`: `dx` outer, `dz` inner,
each from `-RENDER_DISTANCE` to `RENDER_DISTANCE` (the render distance is
2, giving the 5x5 square). -/
def neededKeysAt (pcx pcz : ℤ) : List JSStr :=
  (List.range 5).flatMap fun (dx : ℕ) =>
    (List.range 5).map fun (dz : ℕ) => chunkKey (pcx + dx - 2) (pcz + dz - 2)

/-- The load-enqueue loop of `update`: append each needed key that is
neither resident nor already queued for load. -/
def enqueueLoads (needed : List JSStr) (s : ChunkState) : ChunkState :=
  { s with
    loadQueue := needed.foldl
      (fun lq k => if (assocLookup s.chunks k).isSome ∨ k ∈ lq then lq else lq ++ [k])
      s.loadQueue }

/-- The unload-enqueue loop of `update`: append each resident key that is
no longer needed and not already queued for unload. -/
def enqueueUnloads (needed : List JSStr) (s : ChunkState) : ChunkState :=
  { s with
    unloadQueue := s.chunks.foldl
      (fun uq kc => if kc.1 ∈ needed ∨ kc.1 ∈ uq then uq else uq ++ [kc.1])
      s.unloadQueue }

/-- One tick of `ChunkManager.update` at observer cell `(pcx, pcz)`. -/
def updateAt (cfg : ChunkConfig) (pcx pcz : ℤ) (s : ChunkState) : ChunkState :=
  processQueues cfg (enqueueUnloads (neededKeysAt pcx pcz) (enqueueLoads (neededKeysAt pcx pcz) s))

/-- One tick of `ChunkManager.update` at world position `(px, pz)`: the
observer cell is `floor(p / CHUNK_SIZE)` in each axis. -/
def update (cfg : ChunkConfig) (px pz : ℚ) (s : ChunkState) : ChunkState :=
  updateAt cfg ⌊px / 100⌋ ⌊pz / 100⌋ s

/-- States reachable from construction by any sequence of `update` calls. -/
inductive Reachable (cfg : ChunkConfig) : ChunkState → Prop
  | init : Reachable cfg initialState
  | step (px pz : ℚ) {s : ChunkState} : Reachable cfg s → Reachable cfg (update cfg px pz s)

/-- All ground-surface and object-group resource ids currently owned by a
pool or referenced by a resident record. -/
def resIds (s : ChunkState) : List ℕ :=
  s.groundMeshPool ++ s.objectGroupPool
    ++ s.chunks.flatMap (fun kc => [kc.2.ground, kc.2.objects])

/-- A concrete collaborator summary used for concrete runs and witnesses
(the resident key set is independent of it). -/
def cfgConst : ChunkConfig := ⟨fun _ _ => .Forest, fun _ _ _ => 0⟩

/-- Ghost-log load-event detector. -/
def isLoadEvent : StreamEvent → Bool
  | .load _ => true
  | .unload _ => false

/-- Ghost-log unload-event detector. -/
def isUnloadEvent : StreamEvent → Bool
  | .load _ => false
  | .unload _ => true

/-- The manager's inductive invariant: resident keys are unique, the load
queue is duplicate-free and disjoint from the resident set, the unload
queue is duplicate-free and contained in the resident set, the manager is
idle between ticks, and every pooled or record-held resource id is unique
and below the fresh-id counter. -/
def Inv (s : ChunkState) : Prop :=
  (s.chunks.map Prod.fst).Nodup ∧
    s.loadQueue.Nodup ∧
    (∀ k ∈ s.loadQueue, k ∉ s.chunks.map Prod.fst) ∧
    s.unloadQueue.Nodup ∧
    (∀ k ∈ s.unloadQueue, k ∈ s.chunks.map Prod.fst) ∧
    s.isProcessing = false ∧
    (resIds s).Nodup ∧
    (∀ i ∈ resIds s, i < s.nextId)

/-! ### Round-trip lemmas for the key encoding -/

lemma toDigitsAux_val : ∀ f n, n ≤ f → ofRevDigits (toDigitsAux f n) = n := by
  intro f
  induction f with
  | zero => intro n hn; interval_cases n; simp [toDigitsAux, ofRevDigits]
  | succ f ih =>
    intro n hn
    by_cases h0 : n = 0
    · simp [toDigitsAux, h0, ofRevDigits]
    · have hdiv : n / 10 ≤ f := by
        have : n / 10 < n := Nat.div_lt_self (Nat.pos_of_ne_zero h0) (by norm_num)
        omega
      simp only [toDigitsAux, h0, if_false, ofRevDigits, ih _ hdiv]
      omega

lemma toDigitsAux_lt : ∀ f n d, d ∈ toDigitsAux f n → d < 10 := by
  intro f
  induction f with
  | zero => intro n d hd; simp [toDigitsAux] at hd
  | succ f ih =>
    intro n d hd
    by_cases h0 : n = 0
    · simp [toDigitsAux, h0] at hd
    · simp only [toDigitsAux, h0, if_false, List.mem_cons] at hd
      rcases hd with h | h
      · subst h; exact Nat.mod_lt _ (by norm_num)
      · exact ih _ _ h

lemma toDigitsAux_ne_nil {f n : ℕ} (h0 : n ≠ 0) (hf : f ≠ 0) :
    toDigitsAux f n ≠ [] := by
  cases f with
  | zero => exact absurd rfl hf
  | succ f => simp [toDigitsAux, h0]

lemma natRevDigits_val (n : ℕ) : ofRevDigits (natRevDigits n) = n := by
  by_cases h0 : n = 0
  · simp [natRevDigits, h0, ofRevDigits]
  · simp only [natRevDigits, h0, if_false]
    exact toDigitsAux_val n n le_rfl

lemma natRevDigits_lt (n : ℕ) : ∀ d ∈ natRevDigits n, d < 10 := by
  intro d hd
  by_cases h0 : n = 0
  · simp [natRevDigits, h0] at hd; omega
  · simp only [natRevDigits, h0, if_false] at hd
    exact toDigitsAux_lt _ _ _ hd

lemma natRevDigits_ne_nil (n : ℕ) : natRevDigits n ≠ [] := by
  by_cases h0 : n = 0
  · simp [natRevDigits, h0]
  · simp only [natRevDigits, h0, if_false]
    exact toDigitsAux_ne_nil h0 h0

lemma digitToChar_toNat {d : ℕ} (hd : d < 10) : (digitToChar d).toNat = 48 + d := by
  interval_cases d <;> rfl

lemma isDigitChar_digitToChar {d : ℕ} (hd : d < 10) : isDigitChar (digitToChar d) = true := by
  interval_cases d <;> rfl

lemma digitToChar_ne_comma {d : ℕ} (hd : d < 10) : digitToChar d ≠ ',' := by
  interval_cases d <;> decide

lemma digitToChar_ne_minus {d : ℕ} (hd : d < 10) : digitToChar d ≠ '-' := by
  interval_cases d <;> decide

lemma digitToChar_ne_plus {d : ℕ} (hd : d < 10) : digitToChar d ≠ '+' := by
  interval_cases d <;> decide

lemma digitsVal_append (xs : List Char) (c : Char) :
    digitsVal (xs ++ [c]) = 10 * digitsVal xs + (c.toNat - 48) := by
  simp [digitsVal, List.foldl_append]

lemma digitsVal_rev_map (L : List ℕ) (h : ∀ d ∈ L, d < 10) :
    digitsVal (L.reverse.map digitToChar) = ofRevDigits L := by
  induction L with
  | nil => simp [digitsVal, ofRevDigits]
  | cons d ds ih =>
    have hd : d < 10 := h d (by simp)
    have hds : ∀ x ∈ ds, x < 10 := fun x hx => h x (by simp [hx])
    simp only [List.reverse_cons, List.map_append, List.map_cons, List.map_nil,
      digitsVal_append, ih hds, ofRevDigits, digitToChar_toNat hd]
    omega

lemma takeWhile_all {p : Char → Bool} {l : JSStr} (h : ∀ c ∈ l, p c = true) :
    l.takeWhile p = l := by
  induction l with
  | nil => rfl
  | cons c cs ih =>
    simp only [List.takeWhile_cons, h c (by simp), if_true]
    exact congrArg _ (ih fun x hx => h x (by simp [hx]))

lemma takeWhile_append_of_all {p : Char → Bool} {xs : JSStr} {y : Char} {ys : JSStr}
    (hxs : ∀ c ∈ xs, p c = true) (hy : p y = false) :
    (xs ++ y :: ys).takeWhile p = xs := by
  induction xs with
  | nil => simp [List.takeWhile_cons, hy]
  | cons c cs ih =>
    simp only [List.cons_append, List.takeWhile_cons, hxs c (by simp), if_true]
    exact congrArg _ (ih fun x hx => hxs x (by simp [hx]))

lemma dropWhile_append_of_all {p : Char → Bool} {xs : JSStr} {y : Char} {ys : JSStr}
    (hxs : ∀ c ∈ xs, p c = true) (hy : p y = false) :
    (xs ++ y :: ys).dropWhile p = y :: ys := by
  induction xs with
  | nil => simp [List.dropWhile_cons, hy]
  | cons c cs ih =>
    simp only [List.cons_append, List.dropWhile_cons, hxs c (by simp), if_true]
    exact ih fun x hx => hxs x (by simp [hx])

lemma natStr_all_digits (n : ℕ) : ∀ c ∈ natStr n, isDigitChar c = true := by
  intro c hc
  simp only [natStr, List.mem_map, List.mem_reverse] at hc
  obtain ⟨d, hd, rfl⟩ := hc
  exact isDigitChar_digitToChar (natRevDigits_lt n d hd)

lemma natStr_ne_nil (n : ℕ) : natStr n ≠ [] := by
  simp [natStr, natRevDigits_ne_nil n]

lemma parseDigits_natStr (n : ℕ) : parseDigits (natStr n) = some n := by
  have htw : (natStr n).takeWhile isDigitChar = natStr n :=
    takeWhile_all (natStr_all_digits n)
  have hval : digitsVal (natStr n) = n := by
    simpa [natStr] using digitsVal_rev_map (natRevDigits n) (natRevDigits_lt n) |>.trans
      (natRevDigits_val n)
  simp [parseDigits, htw, List.isEmpty_iff, natStr_ne_nil n, hval]

lemma jsParseInt_natStr (n : ℕ) : jsParseInt (natStr n) = some (n : ℤ) := by
  obtain ⟨c, cs, hcs⟩ : ∃ c cs, natStr n = c :: cs := by
    cases h : natStr n with
    | nil => exact absurd h (natStr_ne_nil n)
    | cons c cs => exact ⟨c, cs, rfl⟩
  have hcmem : c ∈ natStr n := by rw [hcs]; simp
  have hcdig : isDigitChar c = true := natStr_all_digits n c hcmem
  have hcne : c ≠ '-' := by
    intro h; rw [h] at hcdig; simp [isDigitChar] at hcdig
  have hcne' : c ≠ '+' := by
    intro h; rw [h] at hcdig; simp [isDigitChar] at hcdig
  rw [hcs, jsParseInt, if_neg hcne, if_neg hcne', ← hcs, parseDigits_natStr]
  rfl

lemma jsParseInt_intStr (i : ℤ) : jsParseInt (intStr i) = some i := by
  by_cases hneg : i < 0
  · have h1 : intStr i = '-' :: natStr i.natAbs := by simp [intStr, hneg]
    rw [h1, jsParseInt, if_pos rfl, parseDigits_natStr]
    show some (-(i.natAbs : ℤ)) = some i
    congr 1
    omega
  · have h1 : intStr i = natStr i.natAbs := by simp [intStr, hneg]
    rw [h1, jsParseInt_natStr]
    congr 1
    omega

lemma intStr_no_comma (i : ℤ) : ∀ c ∈ intStr i, c ≠ ',' := by
  intro c hc
  simp only [intStr] at hc
  have hdig : ∀ c ∈ natStr i.natAbs, c ≠ ',' := by
    intro x hx
    simp only [natStr, List.mem_map, List.mem_reverse] at hx
    obtain ⟨d, hd, rfl⟩ := hx
    exact digitToChar_ne_comma (natRevDigits_lt _ d hd)
  by_cases hneg : i < 0
  · rw [if_pos hneg] at hc
    rcases List.mem_cons.mp hc with rfl | hc
    · decide
    · exact hdig c hc
  · rw [if_neg hneg] at hc
    exact hdig c hc

lemma splitAtComma_chunkKey (cx cz : ℤ) :
    splitAtComma (chunkKey cx cz) = (intStr cx, intStr cz) := by
  unfold splitAtComma chunkKey
  rw [takeWhile_append_of_all (fun c hc => decide_eq_true (intStr_no_comma cx c hc)) (by decide),
    dropWhile_append_of_all (fun c hc => decide_eq_true (intStr_no_comma cx c hc)) (by decide)]
  simp

/-- Core round-trip fact: parsing a freshly built cell key recovers exactly
the cell coordinates, including for negative coordinates. -/
lemma parseChunkKey_chunkKey (cx cz : ℤ) :
    parseChunkKey (chunkKey cx cz) = (some cx, some cz) := by
  simp [parseChunkKey, splitAtComma_chunkKey, jsParseInt_intStr]

/-- Distinct cells always receive distinct keys. -/
lemma chunkKey_inj {cx cz cx' cz' : ℤ} (h : chunkKey cx cz = chunkKey cx' cz') :
    cx = cx' ∧ cz = cz' := by
  have h1 := parseChunkKey_chunkKey cx cz
  have h2 := parseChunkKey_chunkKey cx' cz'
  rw [h, h2] at h1
  simp only [Prod.mk.injEq, Option.some.injEq] at h1
  exact ⟨h1.1.symm, h1.2.symm⟩

/-! ### Association-list lemmas (JS `Map` semantics) -/

lemma assocLookup_eq_none {α : Type} {l : List (JSStr × α)} {k : JSStr} :
    assocLookup l k = none ↔ k ∉ l.map Prod.fst := by
  induction l with
  | nil => simp [assocLookup]
  | cons kv rest ih =>
    obtain ⟨k', v⟩ := kv
    show (if k' = k then some v else assocLookup rest k) = none ↔
      k ∉ List.map Prod.fst ((k', v) :: rest)
    simp only [List.map_cons, List.mem_cons, not_or]
    by_cases h : k' = k
    · rw [if_pos h]
      constructor
      · intro hn; exact (Option.some_ne_none v hn).elim
      · intro hp; exact absurd h.symm hp.1
    · rw [if_neg h]
      constructor
      · intro hn; exact ⟨fun hk => h hk.symm, ih.mp hn⟩
      · intro hp; exact ih.mpr hp.2

lemma assocLookup_isSome {α : Type} {l : List (JSStr × α)} {k : JSStr} :
    (assocLookup l k).isSome ↔ k ∈ l.map Prod.fst := by
  constructor
  · intro hs
    by_contra hk
    rw [assocLookup_eq_none.mpr hk] at hs
    simp at hs
  · intro hk
    cases h : assocLookup l k with
    | none => exact absurd hk (assocLookup_eq_none.mp h)
    | some c => rfl

lemma assocSet_of_notMem {α : Type} {l : List (JSStr × α)} {k : JSStr} (v : α)
    (h : k ∉ l.map Prod.fst) : assocSet l k v = l ++ [(k, v)] := by
  induction l with
  | nil => rfl
  | cons kv rest ih =>
    obtain ⟨k', v'⟩ := kv
    simp only [List.map_cons, List.mem_cons, not_or] at h
    show (if k' = k then (k, v) :: rest else (k', v') :: assocSet rest k v) =
      (k', v') :: rest ++ [(k, v)]
    rw [if_neg (fun hk => h.1 hk.symm), ih h.2]
    rfl

lemma assoc_perm_of_lookup {α : Type} {l : List (JSStr × α)} {k : JSStr} {c : α}
    (h : assocLookup l k = some c) : l.Perm ((k, c) :: assocErase l k) := by
  induction l with
  | nil => exact absurd h (by simp [assocLookup])
  | cons kv rest ih =>
    obtain ⟨k', v'⟩ := kv
    have h' : (if k' = k then some v' else assocLookup rest k) = some c := h
    by_cases hk : k' = k
    · rw [if_pos hk] at h'
      subst hk
      obtain rfl : v' = c := Option.some_injective _ h'
      have he : assocErase ((k', v') :: rest) k' = rest := by
        show (if k' = k' then rest else (k', v') :: assocErase rest k') = rest
        rw [if_pos rfl]
      rw [he]
    · rw [if_neg hk] at h'
      have he : assocErase ((k', v') :: rest) k = (k', v') :: assocErase rest k := by
        show (if k' = k then rest else (k', v') :: assocErase rest k) = _
        rw [if_neg hk]
      rw [he]
      exact (List.Perm.cons _ (ih h')).trans (List.Perm.swap _ _ _)

lemma assocErase_keys {α : Type} {l : List (JSStr × α)} {k : JSStr} :
    (assocErase l k).map Prod.fst = (l.map Prod.fst).erase k := by
  induction l with
  | nil => rfl
  | cons kv rest ih =>
    obtain ⟨k', v'⟩ := kv
    show List.map Prod.fst (if k' = k then rest else (k', v') :: assocErase rest k) =
      List.erase (List.map Prod.fst ((k', v') :: rest)) k
    by_cases hk : k' = k
    · subst hk
      rw [if_pos rfl]
      simp [List.erase_cons_head]
    · rw [if_neg hk]
      simp only [List.map_cons]
      rw [List.erase_cons_tail, ih]
      simp [hk]

/-! ### Frame lemmas for the streaming manager operations -/

lemma createGround_frame (s : ChunkState) :
    (createGround s).2.log = s.log ∧ (createGround s).2.chunks = s.chunks ∧
      (createGround s).2.loadQueue = s.loadQueue ∧
      (createGround s).2.unloadQueue = s.unloadQueue ∧
      (createGround s).2.isProcessing = s.isProcessing ∧
      (createGround s).2.scene = s.scene ∧
      (createGround s).2.physicsBodies = s.physicsBodies ∧
      (createGround s).2.objectGroupPool = s.objectGroupPool := by
  unfold createGround
  cases s.groundMeshPool.getLast? <;> exact ⟨rfl, rfl, rfl, rfl, rfl, rfl, rfl, rfl⟩

lemma popObjectGroup_frame (s : ChunkState) :
    (popObjectGroup s).2.log = s.log ∧ (popObjectGroup s).2.chunks = s.chunks ∧
      (popObjectGroup s).2.loadQueue = s.loadQueue ∧
      (popObjectGroup s).2.unloadQueue = s.unloadQueue ∧
      (popObjectGroup s).2.isProcessing = s.isProcessing ∧
      (popObjectGroup s).2.scene = s.scene ∧
      (popObjectGroup s).2.physicsBodies = s.physicsBodies ∧
      (popObjectGroup s).2.groundMeshPool = s.groundMeshPool := by
  unfold popObjectGroup
  cases s.objectGroupPool.getLast? <;> exact ⟨rfl, rfl, rfl, rfl, rfl, rfl, rfl, rfl⟩

lemma loadChunk_log (cfg : ChunkConfig) (k : JSStr) (s : ChunkState) :
    (loadChunk cfg k s).log = .load k :: s.log := by
  show StreamEvent.load k :: (popObjectGroup (createGround s).2).2.log = _
  rw [(popObjectGroup_frame _).1, (createGround_frame _).1]

lemma loadChunk_queues (cfg : ChunkConfig) (k : JSStr) (s : ChunkState) :
    (loadChunk cfg k s).loadQueue = s.loadQueue ∧
      (loadChunk cfg k s).unloadQueue = s.unloadQueue ∧
      (loadChunk cfg k s).isProcessing = s.isProcessing := by
  refine ⟨?_, ?_, ?_⟩
  · show (popObjectGroup (createGround s).2).2.loadQueue = s.loadQueue
    rw [(popObjectGroup_frame _).2.2.1, (createGround_frame _).2.2.1]
  · show (popObjectGroup (createGround s).2).2.unloadQueue = s.unloadQueue
    rw [(popObjectGroup_frame _).2.2.2.1, (createGround_frame _).2.2.2.1]
  · show (popObjectGroup (createGround s).2).2.isProcessing = s.isProcessing
    rw [(popObjectGroup_frame _).2.2.2.2.1, (createGround_frame _).2.2.2.2.1]

lemma unloadChunk_of_absent {k : JSStr} {s : ChunkState}
    (h : assocLookup s.chunks k = none) : unloadChunk k s = s := by
  unfold unloadChunk
  rw [h]

lemma unloadChunk_of_present {k : JSStr} {s : ChunkState} {c : ChunkData}
    (h : assocLookup s.chunks k = some c) :
    unloadChunk k s =
      { s with
        scene := (s.scene.erase c.ground).erase c.objects,
        physicsBodies := c.physicsObjects.foldl (fun pb b => pb.erase b) s.physicsBodies,
        groundMeshPool := s.groundMeshPool ++ [c.ground],
        objectGroupPool := s.objectGroupPool ++ [c.objects],
        chunks := assocErase s.chunks k,
        log := .unload k :: s.log } := by
  unfold unloadChunk
  rw [h]

lemma unloadChunk_log (k : JSStr) (s : ChunkState) :
    (unloadChunk k s).log = s.log ∨ (unloadChunk k s).log = .unload k :: s.log := by
  cases h : assocLookup s.chunks k with
  | none => exact Or.inl (by rw [unloadChunk_of_absent h])
  | some c => exact Or.inr (by rw [unloadChunk_of_present h])

lemma unloadChunk_queues (k : JSStr) (s : ChunkState) :
    (unloadChunk k s).loadQueue = s.loadQueue ∧
      (unloadChunk k s).unloadQueue = s.unloadQueue ∧
      (unloadChunk k s).isProcessing = s.isProcessing := by
  cases h : assocLookup s.chunks k with
  | none => rw [unloadChunk_of_absent h]; exact ⟨rfl, rfl, rfl⟩
  | some c => rw [unloadChunk_of_present h]; exact ⟨rfl, rfl, rfl⟩

/-! ### Case equations for `processQueues` -/

lemma processQueues_of_processing {cfg : ChunkConfig} {t : ChunkState}
    (hp : t.isProcessing = true) : processQueues cfg t = t := by
  unfold processQueues
  rw [if_pos hp]

lemma processQueues_nil_nil {cfg : ChunkConfig} {t : ChunkState}
    (hp : t.isProcessing = false) (hl : t.loadQueue = []) (hu : t.unloadQueue = []) :
    processQueues cfg t = { t with isProcessing := false } := by
  unfold processQueues
  rw [if_neg (by rw [hp]; exact Bool.false_ne_true)]
  simp only [hl, hu]

lemma processQueues_cons_nil {cfg : ChunkConfig} {t : ChunkState} {k : JSStr}
    {rest : List JSStr} (hp : t.isProcessing = false) (hl : t.loadQueue = k :: rest)
    (hu : t.unloadQueue = []) :
    processQueues cfg t =
      { loadChunk cfg k { t with loadQueue := rest } with isProcessing := false } := by
  unfold processQueues
  rw [if_neg (by rw [hp]; exact Bool.false_ne_true)]
  have h2 : (loadChunk cfg k { t with loadQueue := rest }).unloadQueue = [] := by
    rw [(loadChunk_queues _ _ _).2.1]; exact hu
  simp only [hl, h2]

lemma processQueues_nil_cons {cfg : ChunkConfig} {t : ChunkState} {k : JSStr}
    {rest : List JSStr} (hp : t.isProcessing = false) (hl : t.loadQueue = [])
    (hu : t.unloadQueue = k :: rest) :
    processQueues cfg t =
      { unloadChunk k { t with unloadQueue := rest } with isProcessing := false } := by
  unfold processQueues
  rw [if_neg (by rw [hp]; exact Bool.false_ne_true)]
  simp only [hl, hu]

lemma processQueues_cons_cons {cfg : ChunkConfig} {t : ChunkState} {k k' : JSStr}
    {rest rest' : List JSStr} (hp : t.isProcessing = false) (hl : t.loadQueue = k :: rest)
    (hu : t.unloadQueue = k' :: rest') :
    processQueues cfg t =
      { unloadChunk k'
          { loadChunk cfg k { t with loadQueue := rest } with unloadQueue := rest' } with
        isProcessing := false } := by
  unfold processQueues
  rw [if_neg (by rw [hp]; exact Bool.false_ne_true)]
  have h2 : (loadChunk cfg k { t with loadQueue := rest }).unloadQueue = k' :: rest' := by
    rw [(loadChunk_queues _ _ _).2.1]; exact hu
  simp only [hl, h2]

lemma processQueues_log_shape (cfg : ChunkConfig) (t : ChunkState) :
    (processQueues cfg t).log = t.log ∨
      (∃ k, (processQueues cfg t).log = .load k :: t.log) ∨
      (∃ k, (processQueues cfg t).log = .unload k :: t.log) ∨
      (∃ k k', (processQueues cfg t).log = .unload k' :: .load k :: t.log) := by
  by_cases hp : t.isProcessing = true
  · rw [processQueues_of_processing hp]
    exact Or.inl rfl
  · have hp' : t.isProcessing = false := by revert hp; cases t.isProcessing <;> simp
    rcases hl : t.loadQueue with _ | ⟨k, rest⟩
    · rcases hu : t.unloadQueue with _ | ⟨k', rest'⟩
      · rw [processQueues_nil_nil hp' hl hu]
        exact Or.inl rfl
      · rw [processQueues_nil_cons hp' hl hu]
        rcases unloadChunk_log k' { t with unloadQueue := rest' } with h | h
        · exact Or.inl h
        · exact Or.inr (Or.inr (Or.inl ⟨k', h⟩))
    · rcases hu : t.unloadQueue with _ | ⟨k', rest'⟩
      · rw [processQueues_cons_nil hp' hl hu]
        exact Or.inr (Or.inl ⟨k, loadChunk_log cfg k _⟩)
      · rw [processQueues_cons_cons hp' hl hu]
        rcases unloadChunk_log k'
            { loadChunk cfg k { t with loadQueue := rest } with unloadQueue := rest' } with
          h | h
        · exact Or.inr (Or.inl ⟨k, h.trans (loadChunk_log cfg k _)⟩)
        · exact Or.inr (Or.inr (Or.inr ⟨k, k',
            h.trans (congrArg (List.cons (StreamEvent.unload k')) (loadChunk_log cfg k _))⟩))

/-! ## Claim theorems -/

/-- C6: across a single `update` call, at most one cell load and at most
one cell unload are performed, regardless of how many cells entered or
left the needed set in that tick (the ghost log gains at most one load
event and at most one unload event). -/
theorem c6_bounded_per_tick_work (cfg : ChunkConfig) (px pz : ℚ) (s : ChunkState) :
    (update cfg px pz s).log.countP isLoadEvent ≤ s.log.countP isLoadEvent + 1 ∧
      (update cfg px pz s).log.countP isUnloadEvent ≤ s.log.countP isUnloadEvent + 1 := by
  have hsh := processQueues_log_shape cfg
    (enqueueUnloads (neededKeysAt ⌊px / 100⌋ ⌊pz / 100⌋)
      (enqueueLoads (neededKeysAt ⌊px / 100⌋ ⌊pz / 100⌋) s))
  have hlog : (enqueueUnloads (neededKeysAt ⌊px / 100⌋ ⌊pz / 100⌋)
      (enqueueLoads (neededKeysAt ⌊px / 100⌋ ⌊pz / 100⌋) s)).log = s.log := rfl
  rw [hlog] at hsh
  have hup : (update cfg px pz s).log = (processQueues cfg
      (enqueueUnloads (neededKeysAt ⌊px / 100⌋ ⌊pz / 100⌋)
        (enqueueLoads (neededKeysAt ⌊px / 100⌋ ⌊pz / 100⌋) s))).log := rfl
  rw [hup]
  rcases hsh with h | ⟨k, h⟩ | ⟨k, h⟩ | ⟨k, k', h⟩ <;> rw [h] <;>
    exact ⟨by simp [List.countP_cons, isLoadEvent, isUnloadEvent],
      by simp [List.countP_cons, isLoadEvent, isUnloadEvent]⟩

/-- C9: calling `unloadChunk` with a key that has no resident record is a
no-op: the entire manager state (scene, collision world, both pools,
resident map) is returned unchanged. -/
theorem c9_unload_absent_is_noop (key : JSStr) (s : ChunkState)
    (h : assocLookup s.chunks key = none) : unloadChunk key s = s :=
  unloadChunk_of_absent h

/-- Witness for C9 at a concrete input: unloading cell (3, -1) from the
initial (empty) state. -/
theorem c9_unload_absent_is_noop_witness :
    assocLookup initialState.chunks (chunkKey 3 (-1)) = none ∧
      unloadChunk (chunkKey 3 (-1)) initialState = initialState :=
  ⟨rfl, c9_unload_absent_is_noop (chunkKey 3 (-1)) initialState rfl⟩

/-- C10: the cell-key encoding round-trips — building the key of any cell
coordinates, including negative ones, and parsing it back the way
`loadChunk` does recovers exactly the same coordinates, so a queued key
always loads the cell it was enqueued for. -/
theorem c10_cell_key_roundtrip (cx cz : ℤ) :
    parseChunkKey (chunkKey cx cz) = (some cx, some cz) :=
  parseChunkKey_chunkKey cx cz

/-! ### Synthesizer lemmas: only `generateRoads` produces road objects -/

lemma GenOut_append_objects (a b : GenOut) :
    (GenOut.append a b).objects = a.objects ++ b.objects := rfl

lemma mem_concatOut_objects {l : List GenOut} {v : VisualObject}
    (hv : v ∈ (concatOut l).objects) : ∃ o ∈ l, v ∈ o.objects := by
  induction l with
  | nil => exact absurd hv (by simp [concatOut, GenOut.nil])
  | cons a rest ih =>
    have hv' : v ∈ a.objects ++ (concatOut rest).objects := hv
    rcases List.mem_append.mp hv' with h | h
    · exact ⟨a, List.mem_cons_self a rest, h⟩
    · obtain ⟨o, ho, hvo⟩ := ih h
      exact ⟨o, List.mem_cons_of_mem a ho, hvo⟩

lemma no_road_concatOut {l : List GenOut}
    (h : ∀ o ∈ l, ∀ v ∈ o.objects, isRoadObj v = false) :
    ∀ v ∈ (concatOut l).objects, isRoadObj v = false := by
  intro v hv
  obtain ⟨o, ho, hvo⟩ := mem_concatOut_objects hv
  exact h o ho v hvo

lemma no_road_nil : ∀ v ∈ GenOut.nil.objects, isRoadObj v = false := by
  intro v hv
  exact absurd hv (List.not_mem_nil v)

lemma no_road_append {a b : GenOut} (ha : ∀ v ∈ a.objects, isRoadObj v = false)
    (hb : ∀ v ∈ b.objects, isRoadObj v = false) :
    ∀ v ∈ (GenOut.append a b).objects, isRoadObj v = false := by
  intro v hv
  rw [GenOut_append_objects] at hv
  rcases List.mem_append.mp hv with h | h
  · exact ha v h
  · exact hb v h

lemma no_road_ifGen {c : Prop} [Decidable c] {a b : GenOut}
    (ha : ∀ v ∈ a.objects, isRoadObj v = false)
    (hb : ∀ v ∈ b.objects, isRoadObj v = false) :
    ∀ v ∈ (if c then a else b).objects, isRoadObj v = false := by
  by_cases h : c
  · rw [if_pos h]; exact ha
  · rw [if_neg h]; exact hb

lemma no_road_createBuilding (g : BiomeGenerator) (x z w h d : ℚ) :
    ∀ v ∈ (createBuilding g x z w h d).objects, isRoadObj v = false := by
  intro v hv
  obtain rfl := List.mem_singleton.mp hv
  rfl

lemma no_road_createTree (x z : ℚ) :
    ∀ v ∈ (createTree x z).objects, isRoadObj v = false := by
  intro v hv
  obtain rfl := List.mem_singleton.mp hv
  rfl

lemma no_road_createCactus (x z : ℚ) :
    ∀ v ∈ (createCactus x z).objects, isRoadObj v = false := by
  intro v hv
  obtain rfl := List.mem_singleton.mp hv
  rfl

lemma no_road_createRock (x z scale rotDraw : ℚ) (mat : RockMat) :
    ∀ v ∈ (createRock x z scale rotDraw mat).objects, isRoadObj v = false := by
  intro v hv
  obtain rfl := List.mem_singleton.mp hv
  rfl

lemma no_road_buildRange {n : ℕ} {f : ℕ → GenOut}
    (hf : ∀ i, ∀ v ∈ (f i).objects, isRoadObj v = false) :
    ∀ v ∈ (concatOut ((List.range n).map f)).objects, isRoadObj v = false := by
  refine no_road_concatOut ?_
  intro o ho
  obtain ⟨i, _, rfl⟩ := List.mem_map.mp ho
  exact hf i

lemma no_road_alongRoad (g : BiomeGenerator) (cx cz : ℤ) :
    ∀ v ∈ (addBuildingsAlongRoad g cx cz).objects, isRoadObj v = false := by
  refine no_road_append (no_road_ifGen ?_ no_road_nil) (no_road_ifGen ?_ no_road_nil)
  · exact no_road_buildRange fun i => no_road_createBuilding _ _ _ _ _ _
  · exact no_road_buildRange fun i => no_road_createBuilding _ _ _ _ _ _

lemma no_road_city (g : BiomeGenerator) (cx cz : ℤ) :
    ∀ v ∈ (generateCityContent g cx cz).objects, isRoadObj v = false := by
  refine no_road_ifGen (no_road_alongRoad g cx cz) ?_
  exact no_road_buildRange fun i => no_road_createBuilding _ _ _ _ _ _

lemma no_road_suburban (g : BiomeGenerator) (cx cz : ℤ) :
    ∀ v ∈ (generateSuburbanContent g cx cz).objects, isRoadObj v = false := by
  refine no_road_append (no_road_ifGen ?_ no_road_nil) ?_
  · exact no_road_buildRange fun i => no_road_createBuilding _ _ _ _ _ _
  · exact no_road_buildRange fun i => no_road_createTree _ _

lemma no_road_desert (g : BiomeGenerator) (rand : ℕ → ℚ) (cx cz : ℤ) :
    ∀ v ∈ (generateDesertContent g rand cx cz).objects, isRoadObj v = false := by
  refine no_road_append ?_ ?_
  · exact no_road_buildRange fun i => no_road_createCactus _ _
  · exact no_road_buildRange fun i => no_road_createRock _ _ _ _ _

lemma no_road_forest (g : BiomeGenerator) (rand : ℕ → ℚ) (cx cz : ℤ) :
    ∀ v ∈ (generateForestContent g rand cx cz).objects, isRoadObj v = false := by
  refine no_road_append ?_ ?_
  · exact no_road_buildRange fun i => no_road_createTree _ _
  · exact no_road_buildRange fun i => no_road_createRock _ _ _ _ _

lemma no_road_snow (g : BiomeGenerator) (rand : ℕ → ℚ) (cx cz : ℤ) :
    ∀ v ∈ (generateSnowContent g rand cx cz).objects, isRoadObj v = false := by
  refine no_road_append ?_ ?_
  · exact no_road_buildRange fun i => no_road_createTree _ _
  · exact no_road_buildRange fun i => no_road_createRock _ _ _ _ _

lemma isH_false_of_isRoad_false {v : VisualObject} (h : isRoadObj v = false) :
    isHRoadObj v = false := by
  cases v <;> first | rfl | simp [isRoadObj] at h

lemma isV_false_of_isRoad_false {v : VisualObject} (h : isRoadObj v = false) :
    isVRoadObj v = false := by
  cases v <;> first | rfl | simp [isRoadObj] at h

lemma any_false_of_no {p : VisualObject → Bool} {l : List VisualObject}
    (h : ∀ v ∈ l, p v = false) : l.any p = false := by
  induction l with
  | nil => rfl
  | cons a rest ih =>
    rw [List.any_cons, h a (List.mem_cons_self a rest), ih fun v hv => h v (List.mem_cons_of_mem a hv)]
    rfl

lemma no_road_markings (b : Bool) (x z : ℚ) :
    ∀ v ∈ addRoadMarkings b x z, isRoadObj v = false := by
  intro v hv
  obtain ⟨i, _, rfl⟩ := List.mem_map.mp hv
  by_cases hb : b = true
  · rw [if_pos hb]; rfl
  · rw [if_neg hb]; rfl

lemma generateRoads_any (cx cz : ℤ) :
    (generateRoads cx cz).any isHRoadObj = decide (cz % 2 = 0) ∧
      (generateRoads cx cz).any isVRoadObj = decide (cx % 2 = 0) := by
  have hmH : ∀ (b : Bool) (x z : ℚ), (addRoadMarkings b x z).any isHRoadObj = false :=
    fun b x z => any_false_of_no fun v hv => isH_false_of_isRoad_false (no_road_markings b x z v hv)
  have hmV : ∀ (b : Bool) (x z : ℚ), (addRoadMarkings b x z).any isVRoadObj = false :=
    fun b x z => any_false_of_no fun v hv => isV_false_of_isRoad_false (no_road_markings b x z v hv)
  unfold generateRoads
  by_cases hz : cz % 2 = 0 <;> by_cases hx : cx % 2 = 0 <;>
    simp [hz, hx, List.any_append, List.any_cons, isHRoadObj, isVRoadObj, hmH, hmV]

/-- C2 counterexample: cell (0, 0) has both coordinates even, yet
synthesizing it with biome Desert produces no through-road at all —
road presence does depend on the biome. -/
theorem c2_counterexample_desert_even_cell_has_no_road :
    (0 : ℤ) % 2 = 0 ∧
      hasRoad (generateChunkContent srZero (fun _ => 0) 0 0 .Desert) = false := by
  refine ⟨rfl, ?_⟩
  have hroads : (if BiomeType.Desert = BiomeType.City ∨ BiomeType.Desert = BiomeType.Suburban
      then generateRoads 0 0 else []) = [] := by
    rw [if_neg]
    rintro (h | h) <;> exact BiomeType.noConfusion h
  show (hasRoad ⟨_ ++ (generateDesertContent srZero (fun _ => 0) 0 0).objects, _⟩ = false)
  rw [hasRoad]
  refine any_false_of_no ?_
  intro v hv
  rw [hroads] at hv
  rw [List.nil_append] at hv
  exact no_road_desert srZero (fun _ => 0) 0 0 v hv

/-- C2 (amended): road presence is a pure function of the cell parities
and the biome — City and Suburban cells host a horizontal through-road
exactly when `cz` is even and a vertical one exactly when `cx` is even,
while Desert, Forest and Snow cells never host a road. -/
theorem c2_road_presence (g : BiomeGenerator) (rand : ℕ → ℚ) (cx cz : ℤ) :
    (hasRoadH (generateChunkContent g rand cx cz .City) = decide (cz % 2 = 0) ∧
      hasRoadV (generateChunkContent g rand cx cz .City) = decide (cx % 2 = 0)) ∧
    (hasRoadH (generateChunkContent g rand cx cz .Suburban) = decide (cz % 2 = 0) ∧
      hasRoadV (generateChunkContent g rand cx cz .Suburban) = decide (cx % 2 = 0)) ∧
    (hasRoad (generateChunkContent g rand cx cz .Desert) = false ∧
      hasRoad (generateChunkContent g rand cx cz .Forest) = false ∧
      hasRoad (generateChunkContent g rand cx cz .Snow) = false) := by
  have hcity : ∀ v ∈ (generateCityContent g cx cz).objects, isRoadObj v = false :=
    no_road_city g cx cz
  have hsub : ∀ v ∈ (generateSuburbanContent g cx cz).objects, isRoadObj v = false :=
    no_road_suburban g cx cz
  refine ⟨⟨?_, ?_⟩, ⟨?_, ?_⟩, ?_⟩
  · show ((if BiomeType.City = BiomeType.City ∨ BiomeType.City = BiomeType.Suburban
        then generateRoads cx cz else []) ++ (generateCityContent g cx cz).objects).any
        isHRoadObj = decide (cz % 2 = 0)
    rw [if_pos (Or.inl rfl), List.any_append,
      any_false_of_no fun v hv => isH_false_of_isRoad_false (hcity v hv),
      (generateRoads_any cx cz).1, Bool.or_false]
  · show ((if BiomeType.City = BiomeType.City ∨ BiomeType.City = BiomeType.Suburban
        then generateRoads cx cz else []) ++ (generateCityContent g cx cz).objects).any
        isVRoadObj = decide (cx % 2 = 0)
    rw [if_pos (Or.inl rfl), List.any_append,
      any_false_of_no fun v hv => isV_false_of_isRoad_false (hcity v hv),
      (generateRoads_any cx cz).2, Bool.or_false]
  · show ((if BiomeType.Suburban = BiomeType.City ∨ BiomeType.Suburban = BiomeType.Suburban
        then generateRoads cx cz else []) ++ (generateSuburbanContent g cx cz).objects).any
        isHRoadObj = decide (cz % 2 = 0)
    rw [if_pos (Or.inr rfl), List.any_append,
      any_false_of_no fun v hv => isH_false_of_isRoad_false (hsub v hv),
      (generateRoads_any cx cz).1, Bool.or_false]
  · show ((if BiomeType.Suburban = BiomeType.City ∨ BiomeType.Suburban = BiomeType.Suburban
        then generateRoads cx cz else []) ++ (generateSuburbanContent g cx cz).objects).any
        isVRoadObj = decide (cx % 2 = 0)
    rw [if_pos (Or.inr rfl), List.any_append,
      any_false_of_no fun v hv => isV_false_of_isRoad_false (hsub v hv),
      (generateRoads_any cx cz).2, Bool.or_false]
  · refine ⟨?_, ?_, ?_⟩
    · show ((if BiomeType.Desert = BiomeType.City ∨ BiomeType.Desert = BiomeType.Suburban
          then generateRoads cx cz else []) ++
            (generateDesertContent g rand cx cz).objects).any isRoadObj = false
      rw [if_neg (by rintro (h | h) <;> exact BiomeType.noConfusion h), List.nil_append]
      exact any_false_of_no (no_road_desert g rand cx cz)
    · show ((if BiomeType.Forest = BiomeType.City ∨ BiomeType.Forest = BiomeType.Suburban
          then generateRoads cx cz else []) ++
            (generateForestContent g rand cx cz).objects).any isRoadObj = false
      rw [if_neg (by rintro (h | h) <;> exact BiomeType.noConfusion h), List.nil_append]
      exact any_false_of_no (no_road_forest g rand cx cz)
    · show ((if BiomeType.Snow = BiomeType.City ∨ BiomeType.Snow = BiomeType.Suburban
          then generateRoads cx cz else []) ++
            (generateSnowContent g rand cx cz).objects).any isRoadObj = false
      rw [if_neg (by rintro (h | h) <;> exact BiomeType.noConfusion h), List.nil_append]
      exact any_false_of_no (no_road_snow g rand cx cz)

/-! ### Rock rotations depend on the ambient `Math.random()` stream -/

lemma rotDraws_desert_run (rand : ℕ → ℚ) :
    rotDraws (generateChunkContent srZero rand 1 1 .Desert) = [rand 0] := by
  have hr2 : List.range 2 = [0, 1] := rfl
  have hr1 : List.range 1 = [0] := rfl
  simp [generateChunkContent, generateDesertContent, srZero, rotDraws, concatOut,
    GenOut.append, GenOut.nil, createCactus, createRock, hr1, hr2]

/-- C1 (the code contradicts the determinism invariant): synthesizing the
same `(cellCoord, biome)` pair with the same seeded draw function but
different ambient `Math.random()` streams yields different outputs — the
rock rotation is drawn from `Math.random()`, not from the seeded
coordinate hash, so repeated synthesis of the same cell does not reproduce
the same orientations. -/
theorem c1_rock_rotation_not_seed_pure :
    generateChunkContent srZero (fun _ => 0) 1 1 .Desert ≠
      generateChunkContent srZero (fun _ => 1/2) 1 1 .Desert := by
  intro h
  have h2 := congrArg rotDraws h
  rw [rotDraws_desert_run, rotDraws_desert_run] at h2
  have h3 : (0 : ℚ) = 1/2 := List.head_eq_of_cons_eq h2
  norm_num at h3

/-! ### C8: classifier purity -/

/-- C8: the biome classifier is deterministic and referentially
transparent — a `getBiome` call returns the classifier state untouched,
its result is unchanged when another call (any coordinates) is
interleaved before it, and two noise-field instances constructed from the
same seed carry identical permutation tables. -/
theorem c8_classifier_referentially_transparent (c : BiomeClassifier) (x z x' z' : ℚ)
    (n₁ n₂ : SimplexNoise) (seed : ℤ)
    (h₁ : n₁ = mkSimplexNoise seed) (h₂ : n₂ = mkSimplexNoise seed) :
    (getBiomeCall c x z).2 = c ∧
      (getBiomeCall (getBiomeCall c x' z').2 x z).1 = (getBiomeCall c x z).1 ∧
      n₁.perm = n₂.perm ∧ n₁.permMod12 = n₂.permMod12 := by
  subst h₁
  subst h₂
  exact ⟨rfl, rfl, rfl, rfl⟩

/-- Witness for C8 at concrete inputs: a constant-sample classifier at
coordinates (100, 100) and (200, 200), and two instances from seed
12345. -/
theorem c8_classifier_referentially_transparent_witness :
    (getBiomeCall ⟨fun _ _ => 0⟩ 100 100).2 = (⟨fun _ _ => 0⟩ : BiomeClassifier) ∧
      (getBiomeCall (getBiomeCall ⟨fun _ _ => 0⟩ 200 200).2 100 100).1 =
        (getBiomeCall ⟨fun _ _ => 0⟩ 100 100).1 ∧
      (mkSimplexNoise 12345).perm = (mkSimplexNoise 12345).perm ∧
      (mkSimplexNoise 12345).permMod12 = (mkSimplexNoise 12345).permMod12 :=
  c8_classifier_referentially_transparent ⟨fun _ _ => 0⟩ 100 100 200 200
    (mkSimplexNoise 12345) (mkSimplexNoise 12345) 12345 rfl rfl

/-! ### C5: the load queue has no staleness check -/

lemma foldl_enqueue_append_only (chunks : List (JSStr × ChunkData)) (ks : List JSStr) :
    ∀ lq : List JSStr, ∃ tl,
      ks.foldl (fun lq k => if (assocLookup chunks k).isSome ∨ k ∈ lq then lq else lq ++ [k])
        lq = lq ++ tl := by
  induction ks with
  | nil => intro lq; exact ⟨[], by simp⟩
  | cons k ks ih =>
    intro lq
    by_cases h : (assocLookup chunks k).isSome ∨ k ∈ lq
    · obtain ⟨tl, htl⟩ := ih lq
      exact ⟨tl, by rw [List.foldl_cons, if_pos h, htl]⟩
    · obtain ⟨tl, htl⟩ := ih (lq ++ [k])
      exact ⟨[k] ++ tl, by rw [List.foldl_cons, if_neg h, htl, List.append_assoc]⟩

/-- C5 (amended): `processQueues` performs no staleness check — whenever
the load queue is nonempty and the manager is idle, `update` loads the
head key unconditionally (a load event for it is performed during that
tick), whether or not the key is still in the needed set of the current
observer position. -/
theorem c5_stale_load_head_is_loaded_not_skipped (cfg : ChunkConfig) (px pz : ℚ)
    (s : ChunkState) (k : JSStr) (rest : List JSStr) (hl : s.loadQueue = k :: rest)
    (hp : s.isProcessing = false) :
    StreamEvent.load k ∈ (update cfg px pz s).log := by
  obtain ⟨tl, hfold⟩ :=
    foldl_enqueue_append_only s.chunks (neededKeysAt ⌊px / 100⌋ ⌊pz / 100⌋) s.loadQueue
  have htl : (enqueueUnloads (neededKeysAt ⌊px / 100⌋ ⌊pz / 100⌋)
      (enqueueLoads (neededKeysAt ⌊px / 100⌋ ⌊pz / 100⌋) s)).loadQueue = k :: (rest ++ tl) := by
    have h2 : (enqueueLoads (neededKeysAt ⌊px / 100⌋ ⌊pz / 100⌋) s).loadQueue =
        (neededKeysAt ⌊px / 100⌋ ⌊pz / 100⌋).foldl
          (fun lq k => if (assocLookup s.chunks k).isSome ∨ k ∈ lq then lq else lq ++ [k])
          s.loadQueue := rfl
    show (enqueueLoads (neededKeysAt ⌊px / 100⌋ ⌊pz / 100⌋) s).loadQueue = k :: (rest ++ tl)
    rw [h2, hfold, hl]
    rfl
  have htp : (enqueueUnloads (neededKeysAt ⌊px / 100⌋ ⌊pz / 100⌋)
      (enqueueLoads (neededKeysAt ⌊px / 100⌋ ⌊pz / 100⌋) s)).isProcessing = false := hp
  show StreamEvent.load k ∈ (processQueues cfg
    (enqueueUnloads (neededKeysAt ⌊px / 100⌋ ⌊pz / 100⌋)
      (enqueueLoads (neededKeysAt ⌊px / 100⌋ ⌊pz / 100⌋) s))).log
  rcases hu : (enqueueUnloads (neededKeysAt ⌊px / 100⌋ ⌊pz / 100⌋)
      (enqueueLoads (neededKeysAt ⌊px / 100⌋ ⌊pz / 100⌋) s)).unloadQueue with _ | ⟨u, urest⟩
  · rw [processQueues_cons_nil htp htl hu]
    have hlog : ({ loadChunk cfg k
        { enqueueUnloads (neededKeysAt ⌊px / 100⌋ ⌊pz / 100⌋)
            (enqueueLoads (neededKeysAt ⌊px / 100⌋ ⌊pz / 100⌋) s) with
          loadQueue := rest ++ tl } with isProcessing := false } : ChunkState).log =
        StreamEvent.load k :: (enqueueUnloads (neededKeysAt ⌊px / 100⌋ ⌊pz / 100⌋)
          (enqueueLoads (neededKeysAt ⌊px / 100⌋ ⌊pz / 100⌋) s)).log :=
      loadChunk_log cfg k _
    rw [hlog]
    exact List.mem_cons_self _ _
  · rw [processQueues_cons_cons htp htl hu]
    rcases unloadChunk_log u
        { loadChunk cfg k
            { enqueueUnloads (neededKeysAt ⌊px / 100⌋ ⌊pz / 100⌋)
                (enqueueLoads (neededKeysAt ⌊px / 100⌋ ⌊pz / 100⌋) s) with
              loadQueue := rest ++ tl } with unloadQueue := urest } with h | h
    · have hlog := h.trans (loadChunk_log cfg k _)
      rw [show ({ unloadChunk u
          { loadChunk cfg k
              { enqueueUnloads (neededKeysAt ⌊px / 100⌋ ⌊pz / 100⌋)
                  (enqueueLoads (neededKeysAt ⌊px / 100⌋ ⌊pz / 100⌋) s) with
                loadQueue := rest ++ tl } with unloadQueue := urest } with
          isProcessing := false } : ChunkState).log = _ from hlog]
      exact List.mem_cons_self _ _
    · have hlog := h.trans (congrArg (List.cons (StreamEvent.unload u)) (loadChunk_log cfg k _))
      rw [show ({ unloadChunk u
          { loadChunk cfg k
              { enqueueUnloads (neededKeysAt ⌊px / 100⌋ ⌊pz / 100⌋)
                  (enqueueLoads (neededKeysAt ⌊px / 100⌋ ⌊pz / 100⌋) s) with
                loadQueue := rest ++ tl } with unloadQueue := urest } with
          isProcessing := false } : ChunkState).log = _ from hlog]
      exact List.mem_cons_of_mem _ (List.mem_cons_self _ _)

/-- Witness for C5's amended theorem: a state whose load queue holds the
single key of cell (5, 5), observer at the origin (cell (5, 5) is not
needed there) — the key is loaded anyway. -/
theorem c5_stale_load_head_is_loaded_not_skipped_witness :
    ({ initialState with loadQueue := [chunkKey 5 5] } : ChunkState).loadQueue =
        chunkKey 5 5 :: [] ∧
      ({ initialState with loadQueue := [chunkKey 5 5] } : ChunkState).isProcessing = false ∧
      StreamEvent.load (chunkKey 5 5) ∈
        (update cfgConst 0 0 { initialState with loadQueue := [chunkKey 5 5] }).log :=
  ⟨rfl, rfl, c5_stale_load_head_is_loaded_not_skipped cfgConst 0 0
    { initialState with loadQueue := [chunkKey 5 5] } (chunkKey 5 5) [] rfl rfl⟩

set_option maxRecDepth 10000 in
/-- C5 counterexample: start at the origin (one tick loads cell (-2,-2)
and leaves (-2,-1) at the head of the load queue), then jump to world
position (1000, 1000) (observer cell (10,10), so cell (-2,-1) is far
outside the needed set).  The next tick nevertheless loads (-2,-1): it
becomes resident instead of being skipped. -/
theorem c5_counterexample_stale_head_loaded :
    (update cfgConst 0 0 initialState).loadQueue.head? = some (chunkKey (-2) (-1)) ∧
      chunkKey (-2) (-1) ∉ neededKeysAt 10 10 ∧
      (assocLookup (update cfgConst 1000 1000 (update cfgConst 0 0 initialState)).chunks
          (chunkKey (-2) (-1))).isSome = true := by
  have e0 : update cfgConst 0 0 initialState = updateAt cfgConst 0 0 initialState := by
    unfold update
    norm_num
  have e1 : update cfgConst 1000 1000 (updateAt cfgConst 0 0 initialState) =
      updateAt cfgConst 10 10 (updateAt cfgConst 0 0 initialState) := by
    unfold update
    norm_num
  rw [e0, e1]
  decide

/-! ### The streaming invariant is preserved by every tick -/

lemma getLast?_some_decomp {l : List ℕ} {a : ℕ} (h : l.getLast? = some a) :
    l = l.dropLast ++ [a] := by
  induction l with
  | nil => simp at h
  | cons x rest ih =>
    cases hr : rest with
    | nil =>
      subst hr
      simp only [List.getLast?_singleton, Option.some.injEq] at h
      subst h
      rfl
    | cons y t =>
      subst hr
      have h' : (y :: t).getLast? = some a := by
        rw [← h]
        exact List.getLast?_cons_cons.symm
      have := ih h'
      calc x :: y :: t = x :: ((y :: t).dropLast ++ [a]) := by rw [← this]
        _ = (x :: y :: t).dropLast ++ [a] := by simp [List.dropLast_cons₂]

lemma assoc_decomp_of_lookup {α : Type} {l : List (JSStr × α)} {k : JSStr} {c : α}
    (h : assocLookup l k = some c) :
    ∃ A B, l = A ++ (k, c) :: B ∧ assocErase l k = A ++ B ∧ k ∉ A.map Prod.fst := by
  induction l with
  | nil => exact absurd h (by simp [assocLookup])
  | cons kv rest ih =>
    obtain ⟨k', v'⟩ := kv
    have h' : (if k' = k then some v' else assocLookup rest k) = some c := h
    by_cases hk : k' = k
    · rw [if_pos hk] at h'
      have hvc : v' = c := Option.some_injective _ h'
      refine ⟨[], rest, by simp [hk, hvc], ?_, by simp⟩
      show (if k' = k then rest else (k', v') :: assocErase rest k) = [] ++ rest
      rw [if_pos hk]
      rfl
    · rw [if_neg hk] at h'
      obtain ⟨A, B, hl, he, hA⟩ := ih h'
      refine ⟨(k', v') :: A, B, by rw [hl]; rfl, ?_, ?_⟩
      · show (if k' = k then rest else (k', v') :: assocErase rest k) = ((k', v') :: A) ++ B
        rw [if_neg hk, he]
        rfl
      · simp only [List.map_cons, List.mem_cons, not_or]
        exact ⟨fun hkk => hk hkk.symm, hA⟩

lemma foldl_enqueue_load_pres (chunks : List (JSStr × ChunkData)) (ks : List JSStr) :
    ∀ lq : List JSStr, lq.Nodup → (∀ k ∈ lq, k ∉ chunks.map Prod.fst) →
      (ks.foldl
          (fun lq k => if (assocLookup chunks k).isSome ∨ k ∈ lq then lq else lq ++ [k])
          lq).Nodup ∧
        (∀ k ∈ ks.foldl
            (fun lq k => if (assocLookup chunks k).isSome ∨ k ∈ lq then lq else lq ++ [k])
            lq, k ∉ chunks.map Prod.fst) := by
  induction ks with
  | nil => intro lq h1 h2; exact ⟨h1, h2⟩
  | cons k ks ih =>
    intro lq h1 h2
    rw [List.foldl_cons]
    by_cases h : (assocLookup chunks k).isSome ∨ k ∈ lq
    · rw [if_pos h]
      exact ih lq h1 h2
    · rw [if_neg h]
      push_neg at h
      refine ih (lq ++ [k]) ?_ ?_
      · simp [List.nodup_append, h1, h.2]
      · intro k' hk'
        rcases List.mem_append.mp hk' with hm | hm
        · exact h2 k' hm
        · obtain rfl : k' = k := List.mem_singleton.mp hm
          rw [← assocLookup_isSome]
          simpa using h.1

lemma foldl_enqueue_unload_pres (keys : List JSStr) (needed : List JSStr)
    (pairs : List (JSStr × ChunkData)) (hpairs : ∀ kc ∈ pairs, kc.1 ∈ keys) :
    ∀ uq : List JSStr, uq.Nodup → (∀ k ∈ uq, k ∈ keys) →
      (pairs.foldl
          (fun uq kc => if kc.1 ∈ needed ∨ kc.1 ∈ uq then uq else uq ++ [kc.1]) uq).Nodup ∧
        (∀ k ∈ pairs.foldl
            (fun uq kc => if kc.1 ∈ needed ∨ kc.1 ∈ uq then uq else uq ++ [kc.1]) uq,
          k ∈ keys) := by
  induction pairs with
  | nil => intro uq h1 h2; exact ⟨h1, h2⟩
  | cons kc rest ih =>
    intro uq h1 h2
    have hkc : kc.1 ∈ keys := hpairs kc (List.mem_cons_self kc rest)
    have hrest : ∀ p ∈ rest, p.1 ∈ keys := fun p hp => hpairs p (List.mem_cons_of_mem kc hp)
    rw [List.foldl_cons]
    by_cases h : kc.1 ∈ needed ∨ kc.1 ∈ uq
    · rw [if_pos h]
      exact (ih hrest) uq h1 h2
    · rw [if_neg h]
      push_neg at h
      refine (ih hrest) (uq ++ [kc.1]) ?_ ?_
      · simp [List.nodup_append, h1, h.2]
      · intro k' hk'
        rcases List.mem_append.mp hk' with hm | hm
        · exact h2 k' hm
        · obtain rfl : k' = kc.1 := List.mem_singleton.mp hm
          exact hkc

lemma createGround_spec (s : ChunkState) :
    ((createGround s).2.groundMeshPool ++ [(createGround s).1] = s.groundMeshPool ∧
      (createGround s).2.nextId = s.nextId) ∨
    ((createGround s).1 = s.nextId ∧
      (createGround s).2.groundMeshPool = s.groundMeshPool ∧
      (createGround s).2.nextId = s.nextId + 1) := by
  cases hg : s.groundMeshPool.getLast? with
  | some g =>
    refine Or.inl ?_
    rw [show createGround s = (g, { s with groundMeshPool := s.groundMeshPool.dropLast })
      from by simp [createGround, hg]]
    exact ⟨(getLast?_some_decomp hg).symm, rfl⟩
  | none =>
    refine Or.inr ?_
    rw [show createGround s = (s.nextId, { s with nextId := s.nextId + 1 })
      from by simp [createGround, hg]]
    exact ⟨rfl, rfl, rfl⟩

lemma popObjectGroup_spec (s : ChunkState) :
    ((popObjectGroup s).2.objectGroupPool ++ [(popObjectGroup s).1] = s.objectGroupPool ∧
      (popObjectGroup s).2.nextId = s.nextId) ∨
    ((popObjectGroup s).1 = s.nextId ∧
      (popObjectGroup s).2.objectGroupPool = s.objectGroupPool ∧
      (popObjectGroup s).2.nextId = s.nextId + 1) := by
  cases ho : s.objectGroupPool.getLast? with
  | some o =>
    refine Or.inl ?_
    rw [show popObjectGroup s = (o, { s with objectGroupPool := s.objectGroupPool.dropLast })
      from by simp [popObjectGroup, ho]]
    exact ⟨(getLast?_some_decomp ho).symm, rfl⟩
  | none =>
    refine Or.inr ?_
    rw [show popObjectGroup s = (s.nextId, { s with nextId := s.nextId + 1 })
      from by simp [popObjectGroup, ho]]
    exact ⟨rfl, rfl, rfl⟩

lemma loadChunk_chunks (cfg : ChunkConfig) (k : JSStr) (s : ChunkState) :
    (loadChunk cfg k s).chunks = assocSet s.chunks k (loadRecord cfg k s) := by
  show assocSet (popObjectGroup (createGround s).2).2.chunks k (loadRecord cfg k s) =
    assocSet s.chunks k (loadRecord cfg k s)
  rw [(popObjectGroup_frame _).2.1, (createGround_frame _).2.1]

lemma loadChunk_resIds_eq (cfg : ChunkConfig) (k : JSStr) (s : ChunkState)
    (hk : k ∉ s.chunks.map Prod.fst) :
    resIds (loadChunk cfg k s) =
      (createGround s).2.groundMeshPool ++
        (popObjectGroup (createGround s).2).2.objectGroupPool ++
        (s.chunks.flatMap (fun kc => [kc.2.ground, kc.2.objects]) ++
          [(createGround s).1, (popObjectGroup (createGround s).2).1]) := by
  have hgp : (loadChunk cfg k s).groundMeshPool = (createGround s).2.groundMeshPool := by
    show (popObjectGroup (createGround s).2).2.groundMeshPool = _
    exact (popObjectGroup_frame _).2.2.2.2.2.2.2
  have hop : (loadChunk cfg k s).objectGroupPool =
      (popObjectGroup (createGround s).2).2.objectGroupPool := rfl
  have hflat : (loadChunk cfg k s).chunks.flatMap (fun kc => [kc.2.ground, kc.2.objects]) =
      s.chunks.flatMap (fun kc => [kc.2.ground, kc.2.objects]) ++
        [(createGround s).1, (popObjectGroup (createGround s).2).1] := by
    rw [loadChunk_chunks, assocSet_of_notMem _ hk, List.flatMap_append]
    rfl
  show (loadChunk cfg k s).groundMeshPool ++ (loadChunk cfg k s).objectGroupPool ++
      (loadChunk cfg k s).chunks.flatMap (fun kc => [kc.2.ground, kc.2.objects]) = _
  rw [hgp, hop, hflat]

lemma loadChunk_inv (cfg : ChunkConfig) (k : JSStr) (s : ChunkState)
    (hk : k ∉ s.chunks.map Prod.fst)
    (hres : (resIds s).Nodup) (hbound : ∀ i ∈ resIds s, i < s.nextId) :
    (loadChunk cfg k s).chunks.map Prod.fst = s.chunks.map Prod.fst ++ [k] ∧
      (resIds (loadChunk cfg k s)).Nodup ∧
      (∀ i ∈ resIds (loadChunk cfg k s), i < (loadChunk cfg k s).nextId) ∧
      s.nextId ≤ (loadChunk cfg k s).nextId := by
  have hkeys : (loadChunk cfg k s).chunks.map Prod.fst = s.chunks.map Prod.fst ++ [k] := by
    rw [loadChunk_chunks, assocSet_of_notMem _ hk, List.map_append]
    rfl
  have hrid := loadChunk_resIds_eq cfg k s hk
  have hmono2 : (popObjectGroup (createGround s).2).2.nextId ≤ (loadChunk cfg k s).nextId :=
    Nat.le_add_right _ _
  have hresS : resIds s = s.groundMeshPool ++ s.objectGroupPool ++
      s.chunks.flatMap (fun kc => [kc.2.ground, kc.2.objects]) := rfl
  have hopool : (createGround s).2.objectGroupPool = s.objectGroupPool :=
    (createGround_frame s).2.2.2.2.2.2.2
  rcases createGround_spec s with ⟨hg1, hg2⟩ | ⟨hg1, hg2, hg3⟩ <;>
    rcases popObjectGroup_spec (createGround s).2 with ⟨ho1, ho2⟩ | ⟨ho1, ho2, ho3⟩
  · -- both pools popped: the resource multiset is unchanged
    rw [hopool] at ho1
    have hperm : (resIds (loadChunk cfg k s)).Perm (resIds s) := by
      rw [hrid, hresS, ← hg1, ← ho1]
      refine Multiset.coe_eq_coe.mp ?_
      have hpair : ∀ x y : ℕ, ([x, y] : List ℕ) = [x] ++ [y] := fun x y => rfl
      simp only [hpair, ← Multiset.coe_add]
      abel
    have hnext : s.nextId ≤ (loadChunk cfg k s).nextId := by
      rw [hg2] at ho2
      omega
    refine ⟨hkeys, hperm.nodup_iff.mpr hres, ?_, hnext⟩
    intro i hi
    have := hbound i (hperm.mem_iff.mp hi)
    omega
  · -- ground popped, fresh object group
    rw [hopool] at ho2
    rw [hg2] at ho1 ho3
    have hperm : (resIds (loadChunk cfg k s)).Perm
        (resIds s ++ [(popObjectGroup (createGround s).2).1]) := by
      rw [hrid, hresS, ← hg1, ← ho2]
      refine Multiset.coe_eq_coe.mp ?_
      have hpair : ∀ x y : ℕ, ([x, y] : List ℕ) = [x] ++ [y] := fun x y => rfl
      simp only [hpair, ← Multiset.coe_add]
      abel
    have hfresh : (popObjectGroup (createGround s).2).1 = s.nextId := ho1
    have hnd : (resIds s ++ [(popObjectGroup (createGround s).2).1]).Nodup := by
      rw [List.nodup_append]
      refine ⟨hres, List.nodup_singleton _, ?_⟩
      intro a ha hb
      obtain rfl : a = (popObjectGroup (createGround s).2).1 := List.mem_singleton.mp hb
      have := hbound _ ha
      omega
    have hnext : s.nextId < (loadChunk cfg k s).nextId := by
      omega
    refine ⟨hkeys, hperm.nodup_iff.mpr hnd, ?_, le_of_lt hnext⟩
    intro i hi
    rcases List.mem_append.mp (hperm.mem_iff.mp hi) with hm | hm
    · have := hbound i hm
      omega
    · obtain rfl := List.mem_singleton.mp hm
      omega
  · -- fresh ground, object group popped
    rw [hopool] at ho1
    rw [hg3] at ho2
    have hperm : (resIds (loadChunk cfg k s)).Perm (resIds s ++ [(createGround s).1]) := by
      rw [hrid, hresS, ← ho1, hg2]
      refine Multiset.coe_eq_coe.mp ?_
      have hpair : ∀ x y : ℕ, ([x, y] : List ℕ) = [x] ++ [y] := fun x y => rfl
      simp only [hpair, ← Multiset.coe_add]
      abel
    have hnd : (resIds s ++ [(createGround s).1]).Nodup := by
      rw [List.nodup_append]
      refine ⟨hres, List.nodup_singleton _, ?_⟩
      intro a ha hb
      obtain rfl : a = (createGround s).1 := List.mem_singleton.mp hb
      have := hbound _ ha
      omega
    have hnext : s.nextId < (loadChunk cfg k s).nextId := by
      omega
    refine ⟨hkeys, hperm.nodup_iff.mpr hnd, ?_, le_of_lt hnext⟩
    intro i hi
    rcases List.mem_append.mp (hperm.mem_iff.mp hi) with hm | hm
    · have := hbound i hm
      omega
    · obtain rfl := List.mem_singleton.mp hm
      omega
  · -- both fresh
    rw [hopool] at ho2
    rw [hg3] at ho1 ho3
    have hperm : (resIds (loadChunk cfg k s)).Perm
        (resIds s ++ [(createGround s).1, (popObjectGroup (createGround s).2).1]) := by
      rw [hrid, hresS, ← ho2, hg2]
      refine Multiset.coe_eq_coe.mp ?_
      have hpair : ∀ x y : ℕ, ([x, y] : List ℕ) = [x] ++ [y] := fun x y => rfl
      simp only [hpair, ← Multiset.coe_add]
      abel
    have hnd : (resIds s ++ [(createGround s).1, (popObjectGroup (createGround s).2).1]).Nodup := by
      rw [List.nodup_append]
      refine ⟨hres, ?_, ?_⟩
      · rw [List.nodup_cons]
        refine ⟨?_, List.nodup_singleton _⟩
        intro hmem
        obtain h := List.mem_singleton.mp hmem
        omega
      · intro a ha hb
        have hb' := List.mem_cons.mp hb
        rcases hb' with rfl | hb''
        · have := hbound _ ha
          omega
        · obtain rfl := List.mem_singleton.mp hb''
          have := hbound _ ha
          omega
    have hnext : s.nextId < (loadChunk cfg k s).nextId := by
      omega
    refine ⟨hkeys, hperm.nodup_iff.mpr hnd, ?_, le_of_lt hnext⟩
    intro i hi
    rcases List.mem_append.mp (hperm.mem_iff.mp hi) with hm | hm
    · have := hbound i hm
      omega
    · rcases List.mem_cons.mp hm with rfl | hm'
      · omega
      · obtain rfl := List.mem_singleton.mp hm'
        omega

lemma assocLookup_mem {α : Type} {l : List (JSStr × α)} {k : JSStr}
    (h : k ∈ l.map Prod.fst) : ∃ c, assocLookup l k = some c := by
  cases hh : assocLookup l k with
  | none => exact absurd h (assocLookup_eq_none.mp hh)
  | some c => exact ⟨c, rfl⟩

lemma unloadChunk_inv_present (k : JSStr) (s : ChunkState) {c : ChunkData}
    (hc : assocLookup s.chunks k = some c) :
    (unloadChunk k s).chunks.map Prod.fst = (s.chunks.map Prod.fst).erase k ∧
      (resIds (unloadChunk k s)).Perm (resIds s) ∧
      (unloadChunk k s).nextId = s.nextId := by
  obtain ⟨A, B, hl, he, hA⟩ := assoc_decomp_of_lookup hc
  rw [unloadChunk_of_present hc]
  refine ⟨assocErase_keys, ?_, rfl⟩
  have hresS : resIds s = s.groundMeshPool ++ s.objectGroupPool ++
      s.chunks.flatMap (fun kc => [kc.2.ground, kc.2.objects]) := rfl
  show ((s.groundMeshPool ++ [c.ground]) ++ (s.objectGroupPool ++ [c.objects]) ++
      (assocErase s.chunks k).flatMap (fun kc => [kc.2.ground, kc.2.objects])).Perm (resIds s)
  rw [hresS, he, hl, List.flatMap_append, List.flatMap_append, List.flatMap_cons]
  refine Multiset.coe_eq_coe.mp ?_
  have hpair : ∀ x y : ℕ, ([x, y] : List ℕ) = [x] ++ [y] := fun x y => rfl
  simp only [hpair, ← Multiset.coe_add]
  abel

lemma processQueues_inv (cfg : ChunkConfig) (t : ChunkState) (h : Inv t) :
    Inv (processQueues cfg t) := by
  obtain ⟨hnd, hlnd, hldisj, hund, husub, hproc, hres, hbound⟩ := h
  rcases hl : t.loadQueue with _ | ⟨k, rest⟩
  · rcases hu : t.unloadQueue with _ | ⟨u, urest⟩
    · rw [processQueues_nil_nil hproc hl hu]
      exact ⟨hnd, hlnd, hldisj, hund, husub, rfl, hres, hbound⟩
    · rw [processQueues_nil_cons hproc hl hu]
      have hu_mem : u ∈ t.chunks.map Prod.fst :=
        husub u (by rw [hu]; exact List.mem_cons_self _ _)
      obtain ⟨c, hc⟩ := assocLookup_mem hu_mem
      obtain ⟨hkeys', hperm', hnext'⟩ :=
        unloadChunk_inv_present u { t with unloadQueue := urest } (c := c) hc
      have hlq : (unloadChunk u { t with unloadQueue := urest }).loadQueue = t.loadQueue :=
        (unloadChunk_queues _ _).1
      have huq : (unloadChunk u { t with unloadQueue := urest }).unloadQueue = urest :=
        (unloadChunk_queues _ _).2.1
      refine ⟨?_, ?_, ?_, ?_, ?_, rfl, ?_, ?_⟩
      · show ((unloadChunk u { t with unloadQueue := urest }).chunks.map Prod.fst).Nodup
        rw [hkeys']
        exact hnd.erase u
      · show ((unloadChunk u { t with unloadQueue := urest }).loadQueue).Nodup
        rw [hlq, hl]
        exact List.nodup_nil
      · intro x hx
        rw [show (({ unloadChunk u { t with unloadQueue := urest } with
            isProcessing := false } : ChunkState).loadQueue) = t.loadQueue from hlq] at hx
        rw [hl] at hx
        cases hx
      · show ((unloadChunk u { t with unloadQueue := urest }).unloadQueue).Nodup
        rw [huq]
        rw [hu] at hund
        exact hund.of_cons
      · intro x hx
        rw [show (({ unloadChunk u { t with unloadQueue := urest } with
            isProcessing := false } : ChunkState).unloadQueue) = urest from huq] at hx
        show x ∈ (unloadChunk u { t with unloadQueue := urest }).chunks.map Prod.fst
        rw [hkeys']
        refine (List.mem_erase_of_ne ?_).mpr (husub x (by rw [hu]; exact List.mem_cons_of_mem u hx))
        rw [hu] at hund
        intro hxu
        subst hxu
        exact (List.nodup_cons.mp hund).1 hx
      · show (resIds (unloadChunk u { t with unloadQueue := urest })).Nodup
        exact hperm'.nodup_iff.mpr hres
      · intro i hi
        have hi' : i ∈ resIds t := hperm'.mem_iff.mp hi
        have := hbound i hi'
        show i < (unloadChunk u { t with unloadQueue := urest }).nextId
        rw [hnext']
        exact this
  · have hkK : k ∉ t.chunks.map Prod.fst :=
      hldisj k (by rw [hl]; exact List.mem_cons_self _ _)
    obtain ⟨hkeysL, hresL, hboundL, hmonoL⟩ :=
      loadChunk_inv cfg k { t with loadQueue := rest } hkK hres hbound
    have hLlq : (loadChunk cfg k { t with loadQueue := rest }).loadQueue = rest :=
      (loadChunk_queues _ _ _).1
    have hLuq : (loadChunk cfg k { t with loadQueue := rest }).unloadQueue = t.unloadQueue :=
      (loadChunk_queues _ _ _).2.1
    have hndL : ((loadChunk cfg k { t with loadQueue := rest }).chunks.map Prod.fst).Nodup := by
      rw [hkeysL, List.nodup_append]
      refine ⟨hnd, List.nodup_singleton _, ?_⟩
      intro a ha hb
      obtain rfl := List.mem_singleton.mp hb
      exact hkK ha
    have hlndRest : rest.Nodup := by
      rw [hl] at hlnd
      exact hlnd.of_cons
    have hldisjL : ∀ x ∈ rest, x ∉ (loadChunk cfg k { t with loadQueue := rest }).chunks.map
        Prod.fst := by
      intro x hx
      rw [hkeysL]
      intro hmem
      rcases List.mem_append.mp hmem with hm | hm
      · exact hldisj x (by rw [hl]; exact List.mem_cons_of_mem k hx) hm
      · obtain rfl := List.mem_singleton.mp hm
        rw [hl] at hlnd
        exact (List.nodup_cons.mp hlnd).1 hx
    rcases hu : t.unloadQueue with _ | ⟨u, urest⟩
    · rw [processQueues_cons_nil hproc hl hu]
      refine ⟨hndL, ?_, ?_, ?_, ?_, rfl, hresL, hboundL⟩
      · show ((loadChunk cfg k { t with loadQueue := rest }).loadQueue).Nodup
        rw [hLlq]
        exact hlndRest
      · intro x hx
        rw [show (({ loadChunk cfg k { t with loadQueue := rest } with
            isProcessing := false } : ChunkState).loadQueue) = rest from hLlq] at hx
        exact hldisjL x hx
      · show ((loadChunk cfg k { t with loadQueue := rest }).unloadQueue).Nodup
        rw [hLuq, hu]
        exact List.nodup_nil
      · intro x hx
        rw [show (({ loadChunk cfg k { t with loadQueue := rest } with
            isProcessing := false } : ChunkState).unloadQueue) = t.unloadQueue from hLuq,
          hu] at hx
        cases hx
    · rw [processQueues_cons_cons hproc hl hu]
      have hu_mem : u ∈ (loadChunk cfg k { t with loadQueue := rest }).chunks.map Prod.fst := by
        rw [hkeysL]
        exact List.mem_append.mpr (Or.inl (husub u (by rw [hu]; exact List.mem_cons_self _ _)))
      obtain ⟨c, hc⟩ := assocLookup_mem hu_mem
      obtain ⟨hkeys', hperm', hnext'⟩ :=
        unloadChunk_inv_present u
          { loadChunk cfg k { t with loadQueue := rest } with unloadQueue := urest } (c := c) hc
      have hlq2 : (unloadChunk u { loadChunk cfg k { t with loadQueue := rest } with
          unloadQueue := urest }).loadQueue = rest := by
        rw [(unloadChunk_queues _ _).1]
        exact hLlq
      have huq2 : (unloadChunk u { loadChunk cfg k { t with loadQueue := rest } with
          unloadQueue := urest }).unloadQueue = urest :=
        (unloadChunk_queues _ _).2.1
      rw [hu] at hund
      refine ⟨?_, ?_, ?_, ?_, ?_, rfl, ?_, ?_⟩
      · show ((unloadChunk u { loadChunk cfg k { t with loadQueue := rest } with
            unloadQueue := urest }).chunks.map Prod.fst).Nodup
        rw [hkeys']
        exact hndL.erase u
      · show ((unloadChunk u { loadChunk cfg k { t with loadQueue := rest } with
            unloadQueue := urest }).loadQueue).Nodup
        rw [hlq2]
        exact hlndRest
      · intro x hx
        rw [show (({ unloadChunk u { loadChunk cfg k { t with loadQueue := rest } with
            unloadQueue := urest } with isProcessing := false } : ChunkState).loadQueue) = rest
          from hlq2] at hx
        show x ∉ (unloadChunk u { loadChunk cfg k { t with loadQueue := rest } with
            unloadQueue := urest }).chunks.map Prod.fst
        rw [hkeys']
        intro hmem
        exact hldisjL x hx (List.mem_of_mem_erase hmem)
      · show ((unloadChunk u { loadChunk cfg k { t with loadQueue := rest } with
            unloadQueue := urest }).unloadQueue).Nodup
        rw [huq2]
        exact hund.of_cons
      · intro x hx
        rw [show (({ unloadChunk u { loadChunk cfg k { t with loadQueue := rest } with
            unloadQueue := urest } with isProcessing := false } : ChunkState).unloadQueue) =
          urest from huq2] at hx
        show x ∈ (unloadChunk u { loadChunk cfg k { t with loadQueue := rest } with
            unloadQueue := urest }).chunks.map Prod.fst
        rw [hkeys', hkeysL]
        refine (List.mem_erase_of_ne ?_).mpr (List.mem_append.mpr (Or.inl
          (husub x (by rw [hu]; exact List.mem_cons_of_mem u hx))))
        intro hxu
        subst hxu
        exact (List.nodup_cons.mp hund).1 hx
      · show (resIds (unloadChunk u { loadChunk cfg k { t with loadQueue := rest } with
            unloadQueue := urest })).Nodup
        exact hperm'.nodup_iff.mpr hresL
      · intro i hi
        have hi' : i ∈ resIds (loadChunk cfg k { t with loadQueue := rest }) :=
          hperm'.mem_iff.mp hi
        have := hboundL i hi'
        show i < (unloadChunk u { loadChunk cfg k { t with loadQueue := rest } with
            unloadQueue := urest }).nextId
        rw [hnext']
        exact this

lemma enqueueLoads_inv (needed : List JSStr) (s : ChunkState) (h : Inv s) :
    Inv (enqueueLoads needed s) := by
  obtain ⟨hnd, hlnd, hldisj, hund, husub, hproc, hres, hbound⟩ := h
  obtain ⟨hnd', hdisj'⟩ := foldl_enqueue_load_pres s.chunks needed s.loadQueue hlnd hldisj
  exact ⟨hnd, hnd', hdisj', hund, husub, hproc, hres, hbound⟩

lemma enqueueUnloads_inv (needed : List JSStr) (s : ChunkState) (h : Inv s) :
    Inv (enqueueUnloads needed s) := by
  obtain ⟨hnd, hlnd, hldisj, hund, husub, hproc, hres, hbound⟩ := h
  obtain ⟨hnd', hsub'⟩ := foldl_enqueue_unload_pres (s.chunks.map Prod.fst) needed s.chunks
    (fun kc hkc => List.mem_map.mpr ⟨kc, hkc, rfl⟩) s.unloadQueue hund husub
  exact ⟨hnd, hlnd, hldisj, hnd', hsub', hproc, hres, hbound⟩

lemma update_inv (cfg : ChunkConfig) (px pz : ℚ) (s : ChunkState) (h : Inv s) :
    Inv (update cfg px pz s) :=
  processQueues_inv cfg _
    (enqueueUnloads_inv _ _ (enqueueLoads_inv _ _ h))

lemma initialState_inv : Inv initialState := by
  refine ⟨List.nodup_nil, List.nodup_nil, ?_, List.nodup_nil, ?_, rfl, List.nodup_nil, ?_⟩ <;>
    intro x hx <;> cases hx

lemma reachable_inv (cfg : ChunkConfig) (s : ChunkState) (h : Reachable cfg s) : Inv s := by
  induction h with
  | init => exact initialState_inv
  | step px pz hr ih => exact update_inv cfg px pz _ ih

/-- C3: in every state reachable by any sequence of `update` calls from
the initial state, no cell key is in the load queue and the unload queue
at the same time, and the resident map holds at most one record per key
(its key list is duplicate-free). -/
theorem c3_no_double_residency (cfg : ChunkConfig) (s : ChunkState) (h : Reachable cfg s) :
    (∀ k, k ∈ s.loadQueue → k ∉ s.unloadQueue) ∧ (s.chunks.map Prod.fst).Nodup := by
  obtain ⟨hnd, _, hldisj, _, husub, _, _, _⟩ := reachable_inv cfg s h
  exact ⟨fun k hk hk' => (hldisj k hk) (husub k hk'), hnd⟩

/-- Witness for C3 at the initial state, which is reachable by the empty
update sequence. -/
theorem c3_no_double_residency_witness :
    (∀ k, k ∈ initialState.loadQueue → k ∉ initialState.unloadQueue) ∧
      (initialState.chunks.map Prod.fst).Nodup :=
  c3_no_double_residency cfgConst initialState Reachable.init

/-- C7: in every reachable state, a pooled ground-surface or object-group
resource is never referenced by a resident cell record, and no resource is
referenced by two resident records at once (the record-held resource ids
are duplicate-free).  Together with the definitions of `createGround` and
`loadChunk` — which hand out a resource by popping the pool, or construct
a fresh id (one strictly above every id in use, by the invariant bound)
when the pool is empty — this is single-owner pooling. -/
theorem c7_pool_single_owner (cfg : ChunkConfig) (s : ChunkState) (h : Reachable cfg s) :
    (∀ i ∈ s.groundMeshPool ++ s.objectGroupPool,
        i ∉ s.chunks.flatMap (fun kc => [kc.2.ground, kc.2.objects])) ∧
      (s.chunks.flatMap (fun kc => [kc.2.ground, kc.2.objects])).Nodup := by
  have hres : (resIds s).Nodup := (reachable_inv cfg s h).2.2.2.2.2.2.1
  rw [show resIds s = (s.groundMeshPool ++ s.objectGroupPool) ++
      s.chunks.flatMap (fun kc => [kc.2.ground, kc.2.objects]) from rfl,
    List.nodup_append] at hres
  exact ⟨fun i hi hif => hres.2.2 hi hif, hres.2.1⟩

/-- Witness for C7 at the initial state, which is reachable by the empty
update sequence. -/
theorem c7_pool_single_owner_witness :
    (∀ i ∈ initialState.groundMeshPool ++ initialState.objectGroupPool,
        i ∉ initialState.chunks.flatMap (fun kc => [kc.2.ground, kc.2.objects])) ∧
      (initialState.chunks.flatMap (fun kc => [kc.2.ground, kc.2.objects])).Nodup :=
  c7_pool_single_owner cfgConst initialState Reachable.init

/-! ### C4: streaming completeness for a stationary observer at the origin -/

lemma update_at_origin (cfg : ChunkConfig) (s : ChunkState) :
    update cfg 0 0 s = updateAt cfg 0 0 s := by
  unfold update
  norm_num

lemma neededKeys00_nodup : (neededKeysAt 0 0).Nodup := by decide

lemma neededKeys00_length : (neededKeysAt 0 0).length = 25 := by decide

lemma foldl_enqueue_load_noop (chunks : List (JSStr × ChunkData)) (ks : List JSStr)
    (lq : List JSStr) (h : ∀ k ∈ ks, (assocLookup chunks k).isSome ∨ k ∈ lq) :
    ks.foldl (fun lq k => if (assocLookup chunks k).isSome ∨ k ∈ lq then lq else lq ++ [k])
      lq = lq := by
  induction ks with
  | nil => rfl
  | cons k rest ih =>
    rw [List.foldl_cons, if_pos (h k (List.mem_cons_self k rest))]
    exact ih fun x hx => h x (List.mem_cons_of_mem k hx)

lemma foldl_enqueue_load_all (chunks : List (JSStr × ChunkData)) (ks : List JSStr)
    (hks : ks.Nodup) (hempty : ∀ k ∈ ks, assocLookup chunks k = none) :
    ∀ lq : List JSStr, (∀ k ∈ ks, k ∉ lq) →
      ks.foldl (fun lq k => if (assocLookup chunks k).isSome ∨ k ∈ lq then lq else lq ++ [k])
        lq = lq ++ ks := by
  induction ks with
  | nil => intro lq _; simp
  | cons k rest ih =>
    intro lq hlq
    have hcond : ¬((assocLookup chunks k).isSome ∨ k ∈ lq) := by
      push_neg
      refine ⟨?_, hlq k (List.mem_cons_self k rest)⟩
      rw [hempty k (List.mem_cons_self k rest)]
      simp
    rw [List.foldl_cons, if_neg hcond]
    rw [ih (List.nodup_cons.mp hks).2 (fun x hx => hempty x (List.mem_cons_of_mem k hx))
      (lq ++ [k]) ?_]
    · simp
    · intro x hx hmem
      rcases List.mem_append.mp hmem with hm | hm
      · exact hlq x (List.mem_cons_of_mem k hx) hm
      · obtain rfl := List.mem_singleton.mp hm
        exact (List.nodup_cons.mp hks).1 hx

lemma foldl_enqueue_unload_noop (needed : List JSStr) (pairs : List (JSStr × ChunkData))
    (uq : List JSStr) (h : ∀ kc ∈ pairs, kc.1 ∈ needed) :
    pairs.foldl (fun uq kc => if kc.1 ∈ needed ∨ kc.1 ∈ uq then uq else uq ++ [kc.1]) uq =
      uq := by
  induction pairs with
  | nil => rfl
  | cons kc rest ih =>
    rw [List.foldl_cons, if_pos (Or.inl (h kc (List.mem_cons_self kc rest)))]
    exact ih fun x hx => h x (List.mem_cons_of_mem kc hx)

lemma update_origin_tick (cfg : ChunkConfig) (s : ChunkState) (n : ℕ) (hn : n < 25)
    (hkeys : s.chunks.map Prod.fst = (neededKeysAt 0 0).take n)
    (hl : s.loadQueue = (neededKeysAt 0 0).drop n ∨ (n = 0 ∧ s.loadQueue = []))
    (hu : s.unloadQueue = []) (hp : s.isProcessing = false) :
    (update cfg 0 0 s).chunks.map Prod.fst = (neededKeysAt 0 0).take (n + 1) ∧
      (update cfg 0 0 s).loadQueue = (neededKeysAt 0 0).drop (n + 1) ∧
      (update cfg 0 0 s).unloadQueue = [] ∧
      (update cfg 0 0 s).isProcessing = false := by
  rw [update_at_origin]
  -- after both enqueue phases, the load queue is exactly the tail of the
  -- needed list and the unload queue is still empty
  have htlq : (enqueueUnloads (neededKeysAt 0 0) (enqueueLoads (neededKeysAt 0 0) s)).loadQueue
      = (neededKeysAt 0 0).drop n := by
    show (neededKeysAt 0 0).foldl
      (fun lq k => if (assocLookup s.chunks k).isSome ∨ k ∈ lq then lq else lq ++ [k])
      s.loadQueue = (neededKeysAt 0 0).drop n
    rcases hl with hl | ⟨hn0, hl⟩
    · rw [hl]
      refine foldl_enqueue_load_noop s.chunks (neededKeysAt 0 0) _ ?_
      intro k hk
      rw [← List.take_append_drop n (neededKeysAt 0 0)] at hk
      rcases List.mem_append.mp hk with hm | hm
      · exact Or.inl (assocLookup_isSome.mpr (by rw [hkeys]; exact hm))
      · exact Or.inr hm
    · subst hn0
      have hchunks : s.chunks = [] := by
        have h0 : s.chunks.map Prod.fst = ([] : List JSStr) := by
          rw [hkeys]
          rfl
        exact List.map_eq_nil_iff.mp h0
      rw [hl]
      rw [foldl_enqueue_load_all s.chunks (neededKeysAt 0 0) neededKeys00_nodup
        (fun k _ => by rw [hchunks]; rfl) [] (fun k _ h => by cases h)]
      rfl
  have htuq : (enqueueUnloads (neededKeysAt 0 0) (enqueueLoads (neededKeysAt 0 0) s)).unloadQueue
      = [] := by
    show s.chunks.foldl
      (fun uq kc => if kc.1 ∈ neededKeysAt 0 0 ∨ kc.1 ∈ uq then uq else uq ++ [kc.1])
      s.unloadQueue = []
    rw [hu]
    refine foldl_enqueue_unload_noop (neededKeysAt 0 0) s.chunks [] ?_
    intro kc hkc
    have : kc.1 ∈ (neededKeysAt 0 0).take n := by
      rw [← hkeys]
      exact List.mem_map.mpr ⟨kc, hkc, rfl⟩
    exact List.take_subset n _ this
  have htp : (enqueueUnloads (neededKeysAt 0 0) (enqueueLoads (neededKeysAt 0 0) s)).isProcessing
      = false := hp
  have hn' : n < (neededKeysAt 0 0).length := by rw [neededKeys00_length]; exact hn
  have hdrop : (neededKeysAt 0 0).drop n =
      (neededKeysAt 0 0)[n] :: (neededKeysAt 0 0).drop (n + 1) := List.drop_eq_getElem_cons hn'
  have htlq' : (enqueueUnloads (neededKeysAt 0 0) (enqueueLoads (neededKeysAt 0 0) s)).loadQueue
      = (neededKeysAt 0 0)[n] :: (neededKeysAt 0 0).drop (n + 1) := by rw [htlq, hdrop]
  unfold updateAt
  rw [processQueues_cons_nil htp htlq' htuq]
  -- facts about the freshly loaded key
  have hkmem : (neededKeysAt 0 0)[n] ∉ s.chunks.map Prod.fst := by
    rw [hkeys]
    intro hmem
    exact List.disjoint_take_drop neededKeys00_nodup le_rfl hmem
      (by rw [hdrop]; exact List.mem_cons_self _ _)
  have hkeysL : (loadChunk cfg ((neededKeysAt 0 0)[n])
      { enqueueUnloads (neededKeysAt 0 0) (enqueueLoads (neededKeysAt 0 0) s) with
        loadQueue := (neededKeysAt 0 0).drop (n + 1) }).chunks.map Prod.fst =
      s.chunks.map Prod.fst ++ [(neededKeysAt 0 0)[n]] := by
    rw [loadChunk_chunks,
      show ({ enqueueUnloads (neededKeysAt 0 0) (enqueueLoads (neededKeysAt 0 0) s) with
          loadQueue := (neededKeysAt 0 0).drop (n + 1) } : ChunkState).chunks = s.chunks
        from rfl,
      assocSet_of_notMem _ hkmem, List.map_append]
    rfl
  refine ⟨?_, ?_, ?_, rfl⟩
  · show (loadChunk cfg ((neededKeysAt 0 0)[n])
        { enqueueUnloads (neededKeysAt 0 0) (enqueueLoads (neededKeysAt 0 0) s) with
          loadQueue := (neededKeysAt 0 0).drop (n + 1) }).chunks.map Prod.fst =
      (neededKeysAt 0 0).take (n + 1)
    rw [hkeysL, hkeys]
    exact List.take_concat_get' _ _ hn'
  · show (loadChunk cfg ((neededKeysAt 0 0)[n])
        { enqueueUnloads (neededKeysAt 0 0) (enqueueLoads (neededKeysAt 0 0) s) with
          loadQueue := (neededKeysAt 0 0).drop (n + 1) }).loadQueue =
      (neededKeysAt 0 0).drop (n + 1)
    exact (loadChunk_queues _ _ _).1
  · show (loadChunk cfg ((neededKeysAt 0 0)[n])
        { enqueueUnloads (neededKeysAt 0 0) (enqueueLoads (neededKeysAt 0 0) s) with
          loadQueue := (neededKeysAt 0 0).drop (n + 1) }).unloadQueue = []
    rw [(loadChunk_queues _ _ _).2.1]
    exact htuq

lemma update_origin_stable (cfg : ChunkConfig) (s : ChunkState)
    (hkeys : s.chunks.map Prod.fst = neededKeysAt 0 0)
    (hl : s.loadQueue = []) (hu : s.unloadQueue = []) (hp : s.isProcessing = false) :
    update cfg 0 0 s = s := by
  rw [update_at_origin]
  have h1 : enqueueLoads (neededKeysAt 0 0) s = s := by
    show { s with loadQueue := ((neededKeysAt 0 0).foldl
      (fun lq k => if (assocLookup s.chunks k).isSome ∨ k ∈ lq then lq else lq ++ [k])
      s.loadQueue) } = s
    rw [foldl_enqueue_load_noop s.chunks (neededKeysAt 0 0) s.loadQueue
      (fun k hk => Or.inl (assocLookup_isSome.mpr (by rw [hkeys]; exact hk)))]
  have h2 : enqueueUnloads (neededKeysAt 0 0) s = s := by
    show { s with unloadQueue := (s.chunks.foldl
      (fun uq kc => if kc.1 ∈ neededKeysAt 0 0 ∨ kc.1 ∈ uq then uq else uq ++ [kc.1])
      s.unloadQueue) } = s
    rw [foldl_enqueue_unload_noop (neededKeysAt 0 0) s.chunks s.unloadQueue
      (fun kc hkc => by rw [← hkeys]; exact List.mem_map.mpr ⟨kc, hkc, rfl⟩)]
  show processQueues cfg (enqueueUnloads (neededKeysAt 0 0) (enqueueLoads (neededKeysAt 0 0) s))
    = s
  rw [h1, h2, processQueues_nil_nil hp hl hu, ← hp]

lemma update_origin_iter (cfg : ChunkConfig) :
    ∀ n, 1 ≤ n → n ≤ 25 →
      ((update cfg 0 0)^[n] initialState).chunks.map Prod.fst = (neededKeysAt 0 0).take n ∧
        ((update cfg 0 0)^[n] initialState).loadQueue = (neededKeysAt 0 0).drop n ∧
        ((update cfg 0 0)^[n] initialState).unloadQueue = [] ∧
        ((update cfg 0 0)^[n] initialState).isProcessing = false := by
  intro n
  induction n with
  | zero => intro h; cases h
  | succ m ih =>
    intro _ hle
    rcases Nat.eq_zero_or_pos m with rfl | hm
    · rw [Function.iterate_one]
      exact update_origin_tick cfg initialState 0 (by norm_num) rfl (Or.inr ⟨rfl, rfl⟩) rfl rfl
    · obtain ⟨hk, hl, hu, hp⟩ := ih hm (by omega)
      rw [Function.iterate_succ_apply']
      exact update_origin_tick cfg _ m (by omega) hk (Or.inl hl) hu hp

lemma mem_neededKeys00 (cx cz : ℤ) :
    chunkKey cx cz ∈ neededKeysAt 0 0 ↔ (-2 ≤ cx ∧ cx ≤ 2 ∧ -2 ≤ cz ∧ cz ≤ 2) := by
  unfold neededKeysAt
  simp only [List.mem_flatMap, List.mem_map, List.mem_range]
  constructor
  · rintro ⟨dx, hdx, dz, hdz, heq⟩
    obtain ⟨h1, h2⟩ := chunkKey_inj heq
    omega
  · rintro ⟨h1, h2, h3, h4⟩
    refine ⟨(cx + 2).toNat, by omega, (cz + 2).toNat, by omega, ?_⟩
    have e1 : (0 : ℤ) + ((cx + 2).toNat : ℤ) - 2 = cx := by omega
    have e2 : (0 : ℤ) + ((cz + 2).toNat : ℤ) - 2 = cz := by omega
    rw [e1, e2]

lemma update_origin_iter_stable (cfg : ChunkConfig) (m : ℕ) :
    (update cfg 0 0)^[m] ((update cfg 0 0)^[25] initialState) =
      (update cfg 0 0)^[25] initialState := by
  have h25 := update_origin_iter cfg 25 (by norm_num) le_rfl
  have hfull : ((update cfg 0 0)^[25] initialState).chunks.map Prod.fst = neededKeysAt 0 0 := by
    rw [h25.1]
    exact List.take_of_length_le (by rw [neededKeys00_length])
  have hlq : ((update cfg 0 0)^[25] initialState).loadQueue = [] := by
    rw [h25.2.1]
    exact List.drop_eq_nil_of_le (by rw [neededKeys00_length])
  induction m with
  | zero => rfl
  | succ p ih =>
    rw [Function.iterate_succ_apply', ih]
    exact update_origin_stable cfg _ hfull hlq h25.2.2.1 h25.2.2.2

/-- C4: with the observer stationary at world position (0, 0) (cell size
100, radius 2, any seed/collaborator summary), after at least 25 ticks
the resident key set is exactly the needed 5x5 key square — the keys
of the cells (cx, cz) with -2 ≤ cx ≤ 2 and -2 ≤ cz ≤ 2, no extra and no
missing — and both queues are empty. -/
theorem c4_streaming_completeness (cfg : ChunkConfig) (n : ℕ) (hn : 25 ≤ n) :
    ((update cfg 0 0)^[n] initialState).chunks.map Prod.fst = neededKeysAt 0 0 ∧
      ((update cfg 0 0)^[n] initialState).loadQueue = [] ∧
      ((update cfg 0 0)^[n] initialState).unloadQueue = [] ∧
      (∀ cx cz : ℤ, chunkKey cx cz ∈ neededKeysAt 0 0 ↔
        (-2 ≤ cx ∧ cx ≤ 2 ∧ -2 ≤ cz ∧ cz ≤ 2)) := by
  obtain ⟨m, rfl⟩ : ∃ m, n = m + 25 := ⟨n - 25, by omega⟩
  have h25 := update_origin_iter cfg 25 (by norm_num) le_rfl
  have hfull : ((update cfg 0 0)^[25] initialState).chunks.map Prod.fst = neededKeysAt 0 0 := by
    rw [h25.1]
    exact List.take_of_length_le (by rw [neededKeys00_length])
  have hlq : ((update cfg 0 0)^[25] initialState).loadQueue = [] := by
    rw [h25.2.1]
    exact List.drop_eq_nil_of_le (by rw [neededKeys00_length])
  rw [Function.iterate_add_apply, update_origin_iter_stable cfg m]
  exact ⟨hfull, hlq, h25.2.2.1, mem_neededKeys00⟩

/-- Witness for C4 at the concrete tick count 25 and a concrete
collaborator summary. -/
theorem c4_streaming_completeness_witness :
    25 ≤ 25 ∧
      (((update cfgConst 0 0)^[25] initialState).chunks.map Prod.fst = neededKeysAt 0 0 ∧
        ((update cfgConst 0 0)^[25] initialState).loadQueue = [] ∧
        ((update cfgConst 0 0)^[25] initialState).unloadQueue = [] ∧
        (∀ cx cz : ℤ, chunkKey cx cz ∈ neededKeysAt 0 0 ↔
          (-2 ≤ cx ∧ cx ≤ 2 ∧ -2 ≤ cz ∧ cz ≤ 2))) :=
  ⟨le_rfl, c4_streaming_completeness cfgConst 25 le_rfl⟩

end OpenWorld
